import Mathlib

/-!
# PixlGo — verification of the core video-player logic

A shallow embedding, in Lean 4, of the parts of the PixlGo terminal video
player that the specification's testable properties talk about:

* the epoch-gated `FrameBuffer` (package `video`),
* the decode stream's read loop `Stream.ReadFrames` (package `video`),
* `DefaultTargetFPS` (package `video`) and `calculateTargetFPS`
  (package `player`),
* `Player.Seek`'s time clamping and `Player.Update` (package `player`),
* `CalculateFrameDimensions` (package `player`),
* the diff-cached half-block renderer `Renderer.RenderImage`
  (package `renderer`),
* the key dispatcher `Player.handleKey` (package `player`).

Modelling conventions:

* Go `uint64` counters are `Nat` with an explicit `% 2 ^ 64` wherever the
  source increments them; Go `int64` (`time.Duration`) values are `Int`,
  with an explicit two's-complement wrap applied where additions may
  overflow.
* Go `float64` carries only exact small decimal constants and exact
  comparisons in the code under study; it is modelled by `ℚ` (and by exact
  integer cross-multiplication where the source divides two integers and
  compares or floors the quotient).
* Mutex acquisition/release is dropped: each Go method body is a pure
  state-to-state function, and interleavings are lists of such operations.
* Subprocess I/O, wall-clock readings and pipe reads are oracles: each
  iteration of a read loop receives the outcome of its blocking calls as
  explicit input.
-/

namespace PixlGo

/-- Two's-complement value range wrap for Go's `int64`
(`time.Duration` is an `int64` nanosecond count). -/
def wrap64 (x : ℤ) : ℤ :=
  (x + 2 ^ 63) % 2 ^ 64 - 2 ^ 63

/-- `time.Second` in nanoseconds. -/
def nsPerSecond : ℤ := 1000000000

namespace video

/-- The distinguished errors of package `video`, plus a constructor for
any other Go `error` value (identified by its message). -/
inductive VideoErr where
  | errNoVideoStream
  | errDecodeFailed
  | errOther (msg : String)
deriving DecidableEq, Repr

/-- The `Error()` string of a `VideoErr`, from the `errors.New` texts in
`decoder.go`. -/
def VideoErr.message : VideoErr → String
  | .errNoVideoStream => "no video stream found"
  | .errDecodeFailed => "decode failed"
  | .errOther msg => msg

/-- `image.RGBA`: a flat byte buffer (`Pix`), a row stride and the
rectangle's dimensions.  The buffer is total, as reads in the code under
study stay in range for well-formed images. -/
structure RGBAImage where
  w : ℕ
  h : ℕ
  stride : ℕ
  pix : ℕ → Fin 256

/-- `video.Frame`: a decoded frame, an RGBA image plus a presentation
timestamp (`time.Duration`, nanoseconds). -/
structure Frame where
  image : RGBAImage
  timestamp : ℤ

/-- `video.FrameBuffer`'s fields (the mutex is dropped; see the module
header).  `frame` and `lastError` are nullable pointers, `epoch`,
`dropped` and `frameCount` are `uint64`. -/
structure FrameBuffer where
  frame : Option Frame
  epoch : ℕ
  dropped : ℕ
  frameCount : ℕ
  lastError : Option VideoErr

/-- `NewFrameBuffer`: zero value with `epoch: 1`. -/
def NewFrameBuffer : FrameBuffer :=
  { frame := none, epoch := 1, dropped := 0, frameCount := 0,
    lastError := none }

namespace FrameBuffer

/-- `FrameBuffer.Reset`: clears the frame, counters and error, increments
the epoch, and returns the new epoch. -/
def Reset (fb : FrameBuffer) : FrameBuffer × ℕ :=
  let fb' : FrameBuffer :=
    { frame := none, epoch := (fb.epoch + 1) % 2 ^ 64, dropped := 0,
      frameCount := 0, lastError := none }
  (fb', fb'.epoch)

/-- `FrameBuffer.Epoch`. -/
def Epoch (fb : FrameBuffer) : ℕ := fb.epoch

/-- `FrameBuffer.Store`: saves the frame and bumps `frameCount` only when
the caller's epoch matches; returns whether the frame was accepted. -/
def Store (fb : FrameBuffer) (f : Frame) (epoch : ℕ) : FrameBuffer × Bool :=
  if epoch ≠ fb.epoch then
    (fb, false)
  else
    ({ fb with frame := some f, frameCount := (fb.frameCount + 1) % 2 ^ 64 },
     true)

/-- `FrameBuffer.StoreForce`: saves the frame with no epoch check. -/
def StoreForce (fb : FrameBuffer) (f : Frame) : FrameBuffer :=
  { fb with frame := some f, frameCount := (fb.frameCount + 1) % 2 ^ 64 }

/-- `FrameBuffer.Load`. -/
def Load (fb : FrameBuffer) : Option Frame := fb.frame

/-- `FrameBuffer.DroppedFrames`. -/
def DroppedFrames (fb : FrameBuffer) : ℕ := fb.dropped

/-- `FrameBuffer.FrameCount`. -/
def FrameCount (fb : FrameBuffer) : ℕ := fb.frameCount

/-- `FrameBuffer.AddDropped`. -/
def AddDropped (fb : FrameBuffer) : FrameBuffer :=
  { fb with dropped := (fb.dropped + 1) % 2 ^ 64 }

/-- `FrameBuffer.SetError`: stores the error unconditionally (no epoch
check); the argument is a Go `error`, hence nullable. -/
def SetError (fb : FrameBuffer) (err : Option VideoErr) : FrameBuffer :=
  { fb with lastError := err }

/-- `FrameBuffer.GetError`. -/
def GetError (fb : FrameBuffer) : Option VideoErr := fb.lastError

end FrameBuffer

/-- The mutating `FrameBuffer` operations that occur in the program, as a
trace alphabet.  (`SetError` is only ever called with the non-nil
`ErrDecodeFailed`, so the alphabet's `setError` carries a `VideoErr`.) -/
inductive FBOp where
  | reset
  | store (f : Frame) (epoch : ℕ)
  | storeForce (f : Frame)
  | addDropped
  | setError (e : VideoErr)

/-- Applying one buffer operation to a buffer state. -/
def FBOp.apply (op : FBOp) (fb : FrameBuffer) : FrameBuffer :=
  match op with
  | .reset => (fb.Reset).1
  | .store f epoch => (fb.Store f epoch).1
  | .storeForce f => fb.StoreForce f
  | .addDropped => fb.AddDropped
  | .setError e => fb.SetError (some e)

/-- Applying a list of buffer operations in order (head first). -/
def applyOps (ops : List FBOp) (fb : FrameBuffer) : FrameBuffer :=
  match ops with
  | [] => fb
  | op :: rest => applyOps rest (op.apply fb)

/-- How many of the operations are `Reset`s. -/
def countResets (ops : List FBOp) : ℕ :=
  match ops with
  | [] => 0
  | .reset :: rest => countResets rest + 1
  | _ :: rest => countResets rest

/-- Go's conversion of a `float64` to `time.Duration` (`int64`) truncates
toward zero; on an exact rational this is `num.tdiv den`. -/
def ratTrunc (q : ℚ) : ℤ := q.num.tdiv q.den

/-- `convertRGB24ToRGBA` (stream.go): expands packed RGB triples into
RGBA with alpha 255, expressed per destination byte. -/
def convertRGB24ToRGBA (src : ℕ → Fin 256) : ℕ → Fin 256 :=
  fun j => if j % 4 = 3 then (255 : Fin 256) else src (j / 4 * 3 + j % 4)

/-- `video.Stream`'s pure fields (process handle, pipes and mutex are
dropped; the read loop's blocking calls become per-iteration oracle
inputs, `LoopInput`). -/
structure Stream where
  width : ℕ
  height : ℕ
  fps : ℚ
  epoch : ℕ
  startPos : ℤ

/-- `frameSize = width * height * 3` as set by `StartStream`. -/
def Stream.frameSize (s : Stream) : ℕ := s.width * s.height * 3

/-- The outcome of one iteration's blocking calls in
`Stream.ReadFrames`: the value of the stop flag when read, the result of
`io.ReadFull` (`none` = error/EOF, `some src` = one frame of raw bytes),
and `time.Now()` at the lag check. -/
structure LoopInput where
  stopped : Bool
  read : Option (ℕ → Fin 256)
  now : ℤ

/-- Observable actions of one run of the read loop on the frame
buffer. -/
inductive LoopEvent where
  | stored (accepted : Bool) (timestamp : ℤ)
  | dropped
  | errorSet

/-- The body of `Stream.ReadFrames`'s `for` loop, one constructor of
`inputs` per iteration; threads the shared buffer, `frameNum` and
`currentTime` exactly as the source does.  The final `time.Sleep` has no
state effect and is dropped. -/
def readLoop (s : Stream) (frameDuration playbackStart : ℤ) :
    List LoopInput → FrameBuffer → ℕ → ℤ → FrameBuffer × List LoopEvent
  | [], buf, _, _ => (buf, [])
  | inp :: rest, buf, frameNum, currentTime =>
    if inp.stopped then (buf, [])
    else if buf.Epoch ≠ s.epoch then (buf, [])
    else
      match inp.read with
      | none =>
        if frameNum = 0 then (buf.SetError (some .errDecodeFailed), [.errorSet])
        else (buf, [])
      | some src =>
        let expectedTime := wrap64 (playbackStart + wrap64 (frameNum * frameDuration))
        let lag := wrap64 (inp.now - expectedTime)
        if lag > wrap64 (frameDuration * 5) then
          let out := readLoop s frameDuration playbackStart rest
            buf.AddDropped (frameNum + 1) (wrap64 (currentTime + frameDuration))
          (out.1, .dropped :: out.2)
        else
          let frame : Frame :=
            { image := { w := s.width, h := s.height, stride := 4 * s.width,
                         pix := convertRGB24ToRGBA src },
              timestamp := currentTime }
          let res := buf.Store frame s.epoch
          if res.2 = false then (res.1, [.stored false currentTime])
          else
            let out := readLoop s frameDuration playbackStart rest
              res.1 (frameNum + 1) (wrap64 (currentTime - frameDuration))
            (out.1, .stored true currentTime :: out.2)

/-- `Stream.ReadFrames`: computes `frameDuration`, then runs the loop
from `frameNum = 0`, `currentTime = s.startPos`. -/
def Stream.ReadFrames (s : Stream) (buffer : FrameBuffer)
    (playbackStart : ℤ) (inputs : List LoopInput) :
    FrameBuffer × List LoopEvent :=
  let frameDuration := ratTrunc ((1000000000 : ℚ) / s.fps)
  readLoop s frameDuration playbackStart inputs buffer 0 s.startPos

/-- The timestamps of the frames a run actually stored (accepted
writes), in write order. -/
def storedTimestamps (evs : List LoopEvent) : List ℤ :=
  evs.filterMap fun e =>
    match e with
    | .stored true t => some t
    | _ => none

/-- A list of timestamps is non-decreasing. -/
def nonDecreasing : List ℤ → Bool
  | [] => true
  | [_] => true
  | a :: b :: rest => a ≤ b && nonDecreasing (b :: rest)

/-- Whether the loop's very first iteration performs a read and that
read fails (the loop exits before reading when `stopped` is set). -/
def firstReadFails : List LoopInput → Bool
  | [] => false
  | inp :: _ => !inp.stopped && inp.read.isNone

/-- `DefaultTargetFPS` (stream.go): 24 fps baseline, stepped down to
20 / 15 / 12 as `width*height` crosses 25 000 / 50 000 / 100 000, then
capped at `sourceFPS` when that is positive.  `float64` is modelled by
`ℚ`; the arguments are Go `int`s, compared exactly. -/
def DefaultTargetFPS (width height : ℤ) (sourceFPS : ℚ) : ℚ :=
  let targetFPS : ℚ := 24
  let pixels := width * height
  let targetFPS : ℚ :=
    if pixels > 100000 then 12
    else if pixels > 50000 then 15
    else if pixels > 25000 then 20
    else targetFPS
  if sourceFPS > 0 ∧ targetFPS > sourceFPS then sourceFPS else targetFPS

/-- The pixel-count table of `DefaultTargetFPS` before the source-rate
cap. -/
def baseFPS (pixels : ℤ) : ℚ :=
  if pixels > 100000 then 12
  else if pixels > 50000 then 15
  else if pixels > 25000 then 20
  else 24

/-- A tiny concrete image for instantiating frame binders. -/
def sampleImage : RGBAImage :=
  { w := 2, h := 2, stride := 8, pix := fun _ => 0 }

/-- A tiny concrete frame. -/
def sampleFrame : Frame := { image := sampleImage, timestamp := 0 }

/-- The buffer of the stale-error scenario: epoch bumped to 2 for a
first stream, to 3 for its replacement, then the stale epoch-2 stream's
first-read failure recorded. -/
def staleErrBuffer : FrameBuffer :=
  (((NewFrameBuffer.Reset).1.Reset).1).SetError (some .errDecodeFailed)

/-- A 4×4, 25 fps stream of epoch 2 starting at position 0 (the
dimensions and rate a paused thumbnail would use). -/
def bugStream : Stream :=
  { width := 4, height := 4, fps := 25, epoch := 2, startPos := 0 }

/-- One frame's worth of all-zero bytes. -/
def blackFrameBytes : ℕ → Fin 256 := fun _ => 0

/-- Two consecutive on-time successful reads. -/
def bugInputs : List LoopInput :=
  [{ stopped := false, read := some blackFrameBytes, now := 0 },
   { stopped := false, read := some blackFrameBytes, now := 0 }]

/-- A single failing first read. -/
def failInputs : List LoopInput :=
  [{ stopped := false, read := none, now := 0 }]

end video

namespace player

/-- `player.State` (state.go). -/
inductive State where
  | stateStopped
  | stateLoading
  | statePlaying
  | statePaused
  | stateError
  | stateEnded
deriving DecidableEq, Repr

/-- `PlayerState` (state.go): the player's mutable state record.  The Go
field names are kept. -/
structure PlayerState where
  State : State
  CurrentTime : ℤ
  ErrorMsg : String
  LastFrame : Option video.Frame
  LoadingStart : ℤ
  ScreenW : ℤ
  ScreenH : ℤ
  FrameW : ℤ
  FrameH : ℤ

/-- `clamp` (state.go). -/
def clamp (v lo hi : ℤ) : ℤ :=
  if v < lo then lo
  else if v > hi then hi
  else v

/-- `CalculateFrameDimensions` (state.go).  The source compares and
scales the aspect ratios in `float64`; here the same quotients are
compared by exact cross-multiplication and the `int(...)` truncations of
the (nonnegative) products become integer division, i.e. `float64` is
modelled by exact rational arithmetic. -/
def CalculateFrameDimensions (screenW screenH metaW metaH : ℤ) : ℤ × ℤ :=
  let availH := screenH - 3
  let availH := if availH < 2 then 2 else availH
  let frameW := screenW
  let frameH := availH * 2
  let wh :=
    if metaW > 0 ∧ metaH > 0 then
      if frameW * metaH > metaW * frameH then
        (frameH * metaW / metaH, frameH)
      else
        (frameW, frameW * metaH / metaW)
    else (frameW, frameH)
  (clamp (wh.1 / 2 * 2) 4 screenW, clamp (wh.2 / 2 * 2) 4 (availH * 2))

/-- `calculateTargetFPS` (controls.go): the player-side variant of the
FPS-by-pixel-count table (this one uses 16 for the middle band). -/
def calculateTargetFPS (width height : ℤ) : ℚ :=
  let targetFPS : ℚ := 24
  let pixels := width * height
  if pixels > 100000 then 12
  else if pixels > 50000 then 16
  else if pixels > 25000 then 20
  else targetFPS

/-- `Player.SetError` (controls.go): requests a renderer clear (not part
of the state record) and enters the Error state with the message. -/
def SetError (st : PlayerState) (msg : String) : PlayerState :=
  { st with State := .stateError, ErrorMsg := msg }

/-- `Player.StartPlayback` (controls.go).  Renderer clear/cache effects
are outside the state record.  `startErr` is the oracle for
`decoder.StartStream`'s result (`none` = started, `some m` = error with
message `m`); `now` is `time.Now()` for `LoadingStart`. -/
def StartPlayback (st : PlayerState) (pos : ℤ) (startErr : Option String)
    (now : ℤ) : PlayerState :=
  let st := { st with CurrentTime := pos, State := .stateLoading,
                      LoadingStart := now }
  match startErr with
  | none => st
  | some m => SetError st ("Start failed: " ++ m)

/-- `Player.TogglePause` (controls.go).  `decoder.Stop()` acts on the
decoder, not on the state record. -/
def TogglePause (st : PlayerState) (startErr : Option String) (now : ℤ) :
    PlayerState :=
  match st.State with
  | .statePlaying => { st with State := .statePaused }
  | .statePaused | .stateEnded | .stateStopped =>
      StartPlayback st st.CurrentTime startErr now
  | _ => st

/-- `Player.Seek` (controls.go): clamps `CurrentTime + delta` into the
track, then either schedules a one-shot extraction (Paused/Ended; the
spawned goroutine touches the buffer and `LastFrame`, not
`CurrentTime`) or restarts streaming.  The `int64` addition wraps. -/
def Seek (st : PlayerState) (metaDuration delta : ℤ)
    (startErr : Option String) (now : ℤ) : PlayerState :=
  let newTime := wrap64 (st.CurrentTime + delta)
  let newTime := if newTime < 0 then 0 else newTime
  let newTime :=
    if metaDuration > 0 ∧ newTime ≥ metaDuration then
      let nt := wrap64 (metaDuration - nsPerSecond)
      if nt < 0 then 0 else nt
    else newTime
  let st := { st with CurrentTime := newTime }
  match st.State with
  | .statePaused | .stateEnded => st
  | _ => StartPlayback st newTime startErr now

/-- `Player.Update` (player.go): the ~30 Hz tick.  `now` stands for
`time.Now()` in `time.Since(LoadingStart)`, `decoderRunning` for
`decoder.IsRunning()`. -/
def Update (buffer : video.FrameBuffer) (st : PlayerState) (now : ℤ)
    (decoderRunning : Bool) : PlayerState :=
  match buffer.GetError with
  | some err =>
      if st.State = .stateLoading then SetError st err.message else st
  | none =>
    match st.State with
    | .stateLoading =>
      match buffer.Load with
      | some frame =>
          { st with LastFrame := some frame, CurrentTime := frame.timestamp,
                    State := .statePlaying }
      | none =>
          if now - st.LoadingStart > 10 * nsPerSecond then
            { st with State := .stateError, ErrorMsg := "Timeout loading video" }
          else st
    | .statePlaying =>
      let st :=
        match buffer.Load with
        | some frame =>
            { st with LastFrame := some frame, CurrentTime := frame.timestamp }
        | none => st
      if !decoderRunning ∧ buffer.FrameCount > 0 then
        { st with State := .stateEnded }
      else st
    | _ => st

/-- `SeekSmall` and `SeekLarge` (events.go), in nanoseconds. -/
def SeekSmall : ℤ := 5 * nsPerSecond

/-- `SeekLarge` (events.go). -/
def SeekLarge : ℤ := 30 * nsPerSecond

/-- `EventResult` (events.go). -/
inductive EventResult where
  | eventContinue
  | eventQuit
deriving DecidableEq, Repr

/-- The key events distinguished by `Player.handleKey` (events.go):
`tcell.KeyEscape`, `KeyCtrlC`, `KeyRune r`, the arrows, Home and End. -/
inductive Key where
  | escape
  | ctrlC
  | rune (r : Char)
  | left
  | right
  | down
  | up
  | home
  | keyEnd
deriving DecidableEq, Repr

/-- `Player.handleRune` (events.go). -/
def handleRune (st : PlayerState) (r : Char) (startErr : Option String)
    (now : ℤ) : PlayerState × EventResult :=
  if r = ' ' then (TogglePause st startErr now, .eventContinue)
  else if r = 'r' ∨ r = 'R' then (StartPlayback st 0 startErr now, .eventContinue)
  else (st, .eventContinue)

/-- `Player.handleKey` (events.go): quit keys first, then the
error-dismiss block, then the key dispatch.  `metaDuration` is
`p.meta.Duration`. -/
def handleKey (st : PlayerState) (metaDuration : ℤ) (k : Key)
    (startErr : Option String) (now : ℤ) : PlayerState × EventResult :=
  if k = .escape ∨ k = .ctrlC then (st, .eventQuit)
  else if k = .rune 'q' ∨ k = .rune 'Q' then (st, .eventQuit)
  else
    let st :=
      if st.State = .stateError then
        { st with State := .stateStopped, ErrorMsg := "" }
      else st
    match k with
    | .rune r => handleRune st r startErr now
    | .left => (Seek st metaDuration (-SeekSmall) startErr now, .eventContinue)
    | .right => (Seek st metaDuration SeekSmall startErr now, .eventContinue)
    | .down => (Seek st metaDuration (-SeekLarge) startErr now, .eventContinue)
    | .up => (Seek st metaDuration SeekLarge startErr now, .eventContinue)
    | .home => (Seek st metaDuration (-st.CurrentTime) startErr now, .eventContinue)
    | .keyEnd =>
        if metaDuration > nsPerSecond then
          (Seek st metaDuration (metaDuration - st.CurrentTime - nsPerSecond)
            startErr now, .eventContinue)
        else (st, .eventContinue)
    | _ => (st, .eventContinue)

/-- The keys `handleKey` treats as quit requests. -/
def isQuitKey (k : Key) : Prop :=
  k = .escape ∨ k = .ctrlC ∨ k = .rune 'q' ∨ k = .rune 'Q'

instance (k : Key) : Decidable (isQuitKey k) := by
  unfold isQuitKey
  infer_instance

/-- A concrete player state used to instantiate universally quantified
theorems. -/
def samplePlayerState : PlayerState :=
  { State := .statePlaying, CurrentTime := 5000000000, ErrorMsg := "",
    LastFrame := none, LoadingStart := 0, ScreenW := 80, ScreenH := 24,
    FrameW := 80, FrameH := 42 }

/-- A player state sitting in the Error state with a visible message. -/
def errorPlayerState : PlayerState :=
  { State := .stateError, CurrentTime := 0, ErrorMsg := "decode failed",
    LastFrame := none, LoadingStart := 0, ScreenW := 80, ScreenH := 24,
    FrameW := 80, FrameH := 42 }

/-- A player state in the Loading phase. -/
def loadingPlayerState : PlayerState :=
  { State := .stateLoading, CurrentTime := 0, ErrorMsg := "",
    LastFrame := none, LoadingStart := 0, ScreenW := 80, ScreenH := 24,
    FrameW := 80, FrameH := 42 }

end player

namespace renderer

/-- `packColors` (render_image.go): packs two RGB triples into one
48-bit cache key. -/
def packColors (tr tg tb br bg bb : ℕ) : ℕ :=
  tr <<< 40 ||| tg <<< 32 ||| tb <<< 24 |||
    br <<< 16 ||| bg <<< 8 ||| bb

/-- The all-bits-set `uint64` the diff cache is filled with after a
reallocation. -/
def sentinel : ℕ := 0xFFFFFFFFFFFFFFFF

/-- `renderer.Renderer`'s fields used by `RenderImage`: screen size,
`screen == nil` and `closed` flags, and the diff cache.  (The terminal
handle itself is external; a cell write is recorded as an output
event.) -/
structure Renderer where
  screenW : ℤ
  screenH : ℤ
  hasScreen : Bool
  closed : Bool
  prevCells : List ℕ
  prevW : ℕ
  prevH : ℕ

/-- One `screen.SetContent(x, y, '▀', nil, style)` call: the cell and
the foreground (top) and background (bottom) colors of its style. -/
structure CellWrite where
  x : ℤ
  y : ℤ
  tr : Fin 256
  tg : Fin 256
  tb : Fin 256
  br : Fin 256
  bg : Fin 256
  bb : Fin 256
deriving DecidableEq, Repr

/-- The six bytes the loop body reads for the cell whose top pixel row
is `py`: top pixel at `(px, py)`, bottom pixel at `(px, py+1)` when it
exists, else the top pixel repeated. -/
def cellColors (img : video.RGBAImage) (px py : ℕ) :
    Fin 256 × Fin 256 × Fin 256 × Fin 256 × Fin 256 × Fin 256 :=
  let topRowOff := py * img.stride
  let botRowOff := topRowOff + img.stride
  let topOff := topRowOff + px * 4
  let tr := img.pix topOff
  let tg := img.pix (topOff + 1)
  let tb := img.pix (topOff + 2)
  if py + 1 < img.h then
    let botOff := botRowOff + px * 4
    (tr, tg, tb, img.pix botOff, img.pix (botOff + 1), img.pix (botOff + 2))
  else
    (tr, tg, tb, tr, tg, tb)

/-- The packed cache key of that cell. -/
def cellKey (img : video.RGBAImage) (px py : ℕ) : ℕ :=
  let c := cellColors img px py
  packColors c.1 c.2.1 c.2.2.1 c.2.2.2.1 c.2.2.2.2.1 c.2.2.2.2.2

/-- The cell write the loop issues for that cell. -/
def mkWrite (img : video.RGBAImage) (cellX cellY : ℤ) (px py : ℕ) :
    CellWrite :=
  let c := cellColors img px py
  { x := cellX, y := cellY, tr := c.1, tg := c.2.1, tb := c.2.2.1,
    br := c.2.2.2.1, bg := c.2.2.2.2.1, bb := c.2.2.2.2.2 }

/-- The inner (column) loop of `RenderImage`, over the pixel columns in
`pxs`, threading the running cache index `idx` and the cache itself;
returns the cache, the final index and the writes issued. -/
def renderCells (img : video.RGBAImage) (sw ox cellY : ℤ) (py : ℕ) :
    List ℕ → ℕ → List ℕ → List ℕ × ℕ × List CellWrite
  | [], idx, cells => (cells, idx, [])
  | px :: rest, idx, cells =>
    let cellX := ox + (px : ℤ)
    if cellX < 0 ∨ cellX ≥ sw then
      renderCells img sw ox cellY py rest (idx + 1) cells
    else
      let packed := cellKey img px py
      if idx < cells.length ∧ cells.getD idx 0 = packed then
        renderCells img sw ox cellY py rest (idx + 1) cells
      else
        let out := renderCells img sw ox cellY py rest (idx + 1)
          (cells.set idx packed)
        (out.1, out.2.1, mkWrite img cellX cellY px py :: out.2.2)

/-- The outer (row-pair) loop of `RenderImage`, over the cell rows in
`rows` (`py = 2 * cy`); a row outside the screen advances the index by
one row's worth of cells. -/
def renderRows (img : video.RGBAImage) (sw sh ox oy : ℤ) :
    List ℕ → ℕ → List ℕ → List ℕ × List CellWrite
  | [], _, cells => (cells, [])
  | cy :: rest, idx, cells =>
    let cellY := oy + (cy : ℤ)
    if cellY < 0 ∨ cellY ≥ sh then
      renderRows img sw sh ox oy rest (idx + img.w) cells
    else
      let out := renderCells img sw ox cellY (2 * cy) (List.range img.w)
        idx cells
      let out2 := renderRows img sw sh ox oy rest out.2.1 out.1
      (out2.1, out.2.2 ++ out2.2)

/-- `Renderer.RenderImage` (render_image.go): nil/closed/empty guards,
diff-cache (re)allocation with the sentinel fill, then the draw loops.
Returns the new renderer state and the cell writes issued, in order. -/
def RenderImage (r : Renderer) (img? : Option video.RGBAImage)
    (offsetX offsetY : ℤ) : Renderer × List CellWrite :=
  match img? with
  | none => (r, [])
  | some img =>
    if r.hasScreen = false ∨ r.closed then (r, [])
    else if img.w = 0 ∨ img.h = 0 then (r, [])
    else if r.screenW ≤ 0 ∨ r.screenH ≤ 0 then (r, [])
    else
      let cellW := img.w
      let cellH := (img.h + 1) / 2
      let bufsize := cellW * cellH
      let cells0 :=
        if r.prevCells.length ≠ bufsize ∨ r.prevW ≠ cellW ∨
            r.prevH ≠ cellH then
          List.replicate bufsize sentinel
        else r.prevCells
      let out := renderRows img r.screenW r.screenH offsetX offsetY
        (List.range cellH) 0 cells0
      ({ r with prevCells := out.1, prevW := cellW, prevH := cellH },
       out.2)

/-- The diff cache `RenderImage` works with after its cache-management
step: reallocated and filled with the sentinel when the cell-grid shape
changed, the previous cache otherwise. -/
def renderCache (r : Renderer) (img : video.RGBAImage) : List ℕ :=
  if r.prevCells.length ≠ img.w * ((img.h + 1) / 2) ∨ r.prevW ≠ img.w ∨
      r.prevH ≠ (img.h + 1) / 2 then
    List.replicate (img.w * ((img.h + 1) / 2)) sentinel
  else r.prevCells

/-- A 4-cell screen renderer with an empty cache. -/
def sampleRenderer : Renderer :=
  { screenW := 4, screenH := 4, hasScreen := true, closed := false,
    prevCells := [], prevW := 0, prevH := 0 }

/-- All-zero pixels. -/
def zeroPix : ℕ → Fin 256 := fun _ => 0

/-- `zeroPix` with the three bytes of the pixel at flat offset 0
changed (used as the one-pixel-difference witness). -/
def onePix : ℕ → Fin 256 := fun i => if 2 < i then 0 else 1

/-- A 2×2 image (stride 8) of zeros. -/
def zeroImage : video.RGBAImage := { w := 2, h := 2, stride := 8, pix := zeroPix }

/-- The same 2×2 image with pixel (0,0) changed. -/
def oneImage : video.RGBAImage := { w := 2, h := 2, stride := 8, pix := onePix }

end renderer

/-! ## General lemmas -/

theorem wrap64_lb (x : ℤ) : -2 ^ 63 ≤ wrap64 x := by
  have h := Int.emod_nonneg (x + 2 ^ 63) (b := 2 ^ 64) (by norm_num)
  unfold wrap64
  omega

theorem wrap64_ub (x : ℤ) : wrap64 x < 2 ^ 63 := by
  have h := Int.emod_lt_of_pos (x + 2 ^ 63) (b := 2 ^ 64) (by norm_num)
  unfold wrap64
  omega

theorem wrap64_eq_self {x : ℤ} (h1 : -2 ^ 63 ≤ x) (h2 : x < 2 ^ 63) :
    wrap64 x = x := by
  unfold wrap64
  rw [Int.emod_eq_of_lt (by omega) (by omega)]
  omega

/-! ## The FPS table (claims C3 and C9) -/

namespace video

theorem source_cap_eq (b s : ℚ) :
    (if s > 0 ∧ b > s then s else b) = if 0 < s then min b s else b := by
  split_ifs with h1 h2 h2
  · exact (min_eq_right h1.2.le).symm
  · exact absurd h1.1 h2
  · have hb : b ≤ s := le_of_not_lt fun hlt => h1 ⟨h2, hlt⟩
    exact (min_eq_left hb).symm
  · rfl

theorem DefaultTargetFPS_eq (w h : ℤ) (s : ℚ) :
    DefaultTargetFPS w h s =
      if 0 < s then min (baseFPS (w * h)) s else baseFPS (w * h) := by
  unfold DefaultTargetFPS baseFPS
  exact source_cap_eq _ s

theorem baseFPS_antitone {p q : ℤ} (h : p ≤ q) : baseFPS q ≤ baseFPS p := by
  unfold baseFPS
  split_ifs <;> (try (exfalso; omega)) <;> norm_num

theorem baseFPS_le (p : ℤ) : baseFPS p ≤ 24 := by
  unfold baseFPS
  split_ifs <;> norm_num

end video

/-- C3 counterexample: at 300×200 (60 000 pixels, in the
(50 000, 100 000] band) with a 30 fps source, `DefaultTargetFPS` returns
15, not 16 as the claim states. -/
theorem claim_C3_counterexample :
    video.DefaultTargetFPS 300 200 30 = 15 ∧
      video.DefaultTargetFPS 300 200 30 ≠ 16 := by
  constructor <;> decide

/-- C3 (amended): for positive dimensions and any source rate at least
the 24 fps baseline (so the cap does not bind), `DefaultTargetFPS` is 24
up to 25 000 pixels, 20 up to 50 000, 15 up to 100 000, and 12 above
that. -/
theorem claim_C3_fps_table (w h : ℤ) (s : ℚ) (hw : 0 < w) (hh : 0 < h)
    (hs : 24 ≤ s) :
    (w * h ≤ 25000 → video.DefaultTargetFPS w h s = 24) ∧
    (25000 < w * h → w * h ≤ 50000 → video.DefaultTargetFPS w h s = 20) ∧
    (50000 < w * h → w * h ≤ 100000 → video.DefaultTargetFPS w h s = 15) ∧
    (100000 < w * h → video.DefaultTargetFPS w h s = 12) := by
  have h0 : (0 : ℚ) < s := by linarith
  have hmin : ∀ b : ℚ, b ≤ 24 → min b s = b := by
    intro b hb
    exact min_eq_left (by linarith)
  refine ⟨?_, ?_, ?_, ?_⟩ <;> intros <;>
    rw [video.DefaultTargetFPS_eq, if_pos h0] <;>
    unfold video.baseFPS <;>
    split_ifs <;> (try (exfalso; omega)) <;> rw [hmin] <;> norm_num

theorem claim_C3_fps_table_witness :
    ((300 : ℤ) * 200 ≤ 25000 → video.DefaultTargetFPS 300 200 30 = 24) ∧
    (25000 < (300 : ℤ) * 200 → (300 : ℤ) * 200 ≤ 50000 →
      video.DefaultTargetFPS 300 200 30 = 20) ∧
    (50000 < (300 : ℤ) * 200 → (300 : ℤ) * 200 ≤ 100000 →
      video.DefaultTargetFPS 300 200 30 = 15) ∧
    (100000 < (300 : ℤ) * 200 → video.DefaultTargetFPS 300 200 30 = 12) :=
  claim_C3_fps_table 300 200 30 (by decide) (by decide) (by decide)

/-- C9 counterexample: with `sourceFPS = 0` (the "unknown rate"
sentinel) the cap is skipped, and the result 24 exceeds `sourceFPS`; so
"never exceeds sourceFPS for every sourceFPS" fails. -/
theorem claim_C9_counterexample :
    ¬ video.DefaultTargetFPS 10 10 0 ≤ 0 := by
  decide

/-- C9 (amended): `DefaultTargetFPS` is non-increasing in the pixel
count for every source rate, and it never exceeds the source rate
whenever the source rate is positive (the cap is skipped when
`sourceFPS ≤ 0`). -/
theorem claim_C9_fps_monotone (w1 h1 w2 h2 w h : ℤ) (s t : ℚ)
    (hpix : w1 * h1 ≤ w2 * h2) (ht : 0 < t) :
    video.DefaultTargetFPS w2 h2 s ≤ video.DefaultTargetFPS w1 h1 s ∧
      video.DefaultTargetFPS w h t ≤ t := by
  constructor
  · rw [video.DefaultTargetFPS_eq, video.DefaultTargetFPS_eq]
    have hb := video.baseFPS_antitone hpix
    split_ifs
    · exact min_le_min hb le_rfl
    · exact hb
  · rw [video.DefaultTargetFPS_eq, if_pos ht]
    exact min_le_right _ _

theorem claim_C9_fps_monotone_witness :
    video.DefaultTargetFPS 400 300 30 ≤ video.DefaultTargetFPS 100 100 30 ∧
      video.DefaultTargetFPS 400 300 30 ≤ 30 :=
  claim_C9_fps_monotone 100 100 400 300 400 300 30 30
    (by decide) (by decide)

/-! ## Seek clamping (claim C5) -/

namespace player

/-- The clamped value `Seek` leaves in `CurrentTime`, spelled out: every
branch of the trailing state `match` preserves it. -/
theorem Seek_CurrentTime (st : PlayerState) (metaDuration delta : ℤ)
    (startErr : Option String) (now : ℤ) :
    (Seek st metaDuration delta startErr now).CurrentTime =
      if metaDuration > 0 ∧
          (if wrap64 (st.CurrentTime + delta) < 0 then 0
           else wrap64 (st.CurrentTime + delta)) ≥ metaDuration then
        (if wrap64 (metaDuration - nsPerSecond) < 0 then 0
         else wrap64 (metaDuration - nsPerSecond))
      else
        (if wrap64 (st.CurrentTime + delta) < 0 then 0
         else wrap64 (st.CurrentTime + delta)) := by
  unfold Seek StartPlayback SetError
  cases h : st.State <;> cases startErr <;> simp only [h] <;> rfl

end player

/-- C5: `Seek` clamps the playback position into `[0, duration)`: from
any representable nonnegative current time and any representable delta,
the resulting current time is nonnegative, and strictly below the
duration whenever the duration is positive. -/
theorem claim_C5_seek_clamps (st : player.PlayerState)
    (metaDuration delta : ℤ) (startErr : Option String) (now : ℤ)
    (h0 : 0 ≤ st.CurrentTime) (h1 : st.CurrentTime < 2 ^ 63)
    (h2 : -2 ^ 63 ≤ delta) (h3 : delta < 2 ^ 63)
    (h4 : metaDuration < 2 ^ 63) :
    0 ≤ (player.Seek st metaDuration delta startErr now).CurrentTime ∧
      (0 < metaDuration →
        (player.Seek st metaDuration delta startErr now).CurrentTime <
          metaDuration) := by
  rw [player.Seek_CurrentTime]
  have hb1 := wrap64_lb (st.CurrentTime + delta)
  have hb2 := wrap64_ub (st.CurrentTime + delta)
  by_cases hdur : metaDuration > 0 ∧
      (if wrap64 (st.CurrentTime + delta) < 0 then 0
       else wrap64 (st.CurrentTime + delta)) ≥ metaDuration
  · rw [if_pos hdur]
    have hB : wrap64 (metaDuration - nsPerSecond) = metaDuration - nsPerSecond :=
      wrap64_eq_self (by unfold nsPerSecond; omega) (by unfold nsPerSecond; omega)
    rw [hB]
    unfold nsPerSecond
    constructor
    · split_ifs <;> omega
    · intro _
      split_ifs <;> omega
  · rw [if_neg hdur]
    constructor
    · split_ifs <;> omega
    · intro hd
      have hlt : ¬ ((if wrap64 (st.CurrentTime + delta) < 0 then 0
          else wrap64 (st.CurrentTime + delta)) ≥ metaDuration) :=
        fun habs => hdur ⟨hd, habs⟩
      split_ifs at hlt ⊢ <;> omega

theorem claim_C5_seek_clamps_witness :
    0 ≤ (player.Seek player.samplePlayerState 7000000000 (-9000000000)
          none 0).CurrentTime ∧
      (0 < (7000000000 : ℤ) →
        (player.Seek player.samplePlayerState 7000000000 (-9000000000)
          none 0).CurrentTime < 7000000000) :=
  claim_C5_seek_clamps player.samplePlayerState 7000000000 (-9000000000) none 0
    (by decide) (by decide) (by decide) (by decide) (by decide)

/-! ## Error dismissal by key press (claim C8) -/

/-- C8 counterexample: pressing Escape while in the Error state neither
clears the error message nor moves to Stopped — `handleKey` returns the
quit result before the error-dismiss block runs. -/
theorem claim_C8_counterexample :
    (player.handleKey player.errorPlayerState 0 .escape none 0).1.State =
        .stateError ∧
      (player.handleKey player.errorPlayerState 0 .escape none 0).1.ErrorMsg =
        "decode failed" ∧
      (player.handleKey player.errorPlayerState 0 .escape none 0).2 =
        .eventQuit := by
  refine ⟨rfl, rfl, rfl⟩

/-- C8 (amended): while in the Error state, every key press other than
the quit keys (Escape, Ctrl-C, `q`, `Q`) clears the error message and
leaves the Error state — landing in Stopped, or in Loading when the
key's bound action immediately restarts playback (stream start
succeeding); the quit keys instead return the quit result without
clearing the error. -/
theorem claim_C8_error_dismiss (st : player.PlayerState) (k : player.Key)
    (metaDuration now : ℤ)
    (herr : st.State = .stateError) (hk : ¬ player.isQuitKey k) :
    (player.handleKey st metaDuration k none now).1.ErrorMsg = "" ∧
      ((player.handleKey st metaDuration k none now).1.State = .stateStopped ∨
        (player.handleKey st metaDuration k none now).1.State = .stateLoading) ∧
      (player.handleKey st metaDuration k none now).2 = .eventContinue := by
  unfold player.isQuitKey at hk
  push_neg at hk
  obtain ⟨hk1, hk2, hk3, hk4⟩ := hk
  unfold player.handleKey
  rw [if_neg (by simp [hk1, hk2]), if_neg (by simp [hk3, hk4]),
    if_pos herr]
  cases k <;>
    simp only [player.handleRune, player.Seek, player.StartPlayback,
      player.TogglePause, player.SetError] <;>
    (try split_ifs) <;>
    simp

theorem claim_C8_error_dismiss_witness :
    (player.handleKey player.errorPlayerState 0 (.rune 'x') none 0).1.ErrorMsg
        = "" ∧
      ((player.handleKey player.errorPlayerState 0 (.rune 'x') none 0).1.State
          = .stateStopped ∨
        (player.handleKey player.errorPlayerState 0 (.rune 'x') none 0).1.State
          = .stateLoading) ∧
      (player.handleKey player.errorPlayerState 0 (.rune 'x') none 0).2 =
        .eventContinue :=
  claim_C8_error_dismiss player.errorPlayerState (.rune 'x') 0 0
    (by decide) (by decide)

/-! ## Epoch discipline of the frame buffer (claims C1 and C10) -/

namespace video

theorem FBOp_apply_epoch (op : FBOp) (fb : FrameBuffer) (h : op ≠ .reset) :
    (op.apply fb).epoch = fb.epoch := by
  cases op with
  | reset => exact absurd rfl h
  | store f e =>
    show ((fb.Store f e).1).epoch = fb.epoch
    unfold FrameBuffer.Store
    split_ifs <;> rfl
  | storeForce f => rfl
  | addDropped => rfl
  | setError e => rfl

theorem countResets_cons_reset (ops : List FBOp) :
    countResets (.reset :: ops) = countResets ops + 1 := rfl

theorem countResets_cons_of_ne {op : FBOp} (ops : List FBOp)
    (h : op ≠ .reset) : countResets (op :: ops) = countResets ops := by
  cases op <;> first | exact absurd rfl h | rfl

theorem applyOps_epoch (ops : List FBOp) (fb : FrameBuffer)
    (h : fb.epoch + countResets ops < 2 ^ 64) :
    (applyOps ops fb).epoch = fb.epoch + countResets ops := by
  induction ops generalizing fb with
  | nil => simp [applyOps, countResets]
  | cons op rest ih =>
    by_cases hop : op = .reset
    · subst hop
      rw [countResets_cons_reset] at h ⊢
      have h1 : (fb.epoch + 1) % 2 ^ 64 = fb.epoch + 1 :=
        Nat.mod_eq_of_lt (by omega)
      have he : (FBOp.apply .reset fb).epoch = fb.epoch + 1 := h1
      rw [applyOps, ih _ (by rw [he]; omega), he]
      omega
    · rw [countResets_cons_of_ne rest hop] at h ⊢
      rw [applyOps, ih _ (by rw [FBOp_apply_epoch op fb hop]; omega),
        FBOp_apply_epoch op fb hop]

end video

/-- C1: `Store(f, e)` succeeds (returns true, replaces the frame and
bumps the received count) exactly when `e` is the buffer's current
epoch; and once `Reset` has returned epoch `e2`, no interleaving of
further buffer operations (short of wrapping the 64-bit epoch counter)
lets a `Store` carrying any `e1 < e2` succeed. -/
theorem claim_C1_epoch_exclusivity (fb : video.FrameBuffer)
    (f f' : video.Frame) (e e1 : ℕ) (ops : List video.FBOp)
    (h1 : e1 < (fb.Reset).2)
    (h2 : (fb.Reset).2 + video.countResets ops < 2 ^ 64) :
    ((fb.Store f e).2 = true ↔ e = fb.epoch) ∧
      ((fb.Store f e).2 = true →
        (fb.Store f e).1.frame = some f ∧
          (fb.Store f e).1.frameCount = (fb.frameCount + 1) % 2 ^ 64) ∧
      ((video.applyOps ops (fb.Reset).1).Store f' e1).2 = false := by
  refine ⟨?_, ?_, ?_⟩
  · unfold video.FrameBuffer.Store
    split_ifs with h
    · exact iff_of_false (by simp) h
    · exact iff_of_true rfl (not_not.mp h)
  · unfold video.FrameBuffer.Store
    split_ifs with h
    · intro hfalse
      simp at hfalse
    · exact fun _ => ⟨rfl, rfl⟩
  · have hre : (fb.Reset).1.epoch = (fb.Reset).2 := rfl
    have hepoch := video.applyOps_epoch ops (fb.Reset).1 (by rw [hre]; omega)
    unfold video.FrameBuffer.Store
    rw [if_pos (by rw [hepoch, hre]; omega)]

theorem claim_C1_epoch_exclusivity_witness :
    ((video.NewFrameBuffer.Store video.sampleFrame 1).2 = true ↔
        1 = video.NewFrameBuffer.epoch) ∧
      ((video.NewFrameBuffer.Store video.sampleFrame 1).2 = true →
        (video.NewFrameBuffer.Store video.sampleFrame 1).1.frame =
            some video.sampleFrame ∧
          (video.NewFrameBuffer.Store video.sampleFrame 1).1.frameCount =
            (video.NewFrameBuffer.frameCount + 1) % 2 ^ 64) ∧
      ((video.applyOps [.reset] (video.NewFrameBuffer.Reset).1).Store
          video.sampleFrame 1).2 = false :=
  claim_C1_epoch_exclusivity video.NewFrameBuffer video.sampleFrame
    video.sampleFrame 1 1 [.reset] (by decide) (by decide)

/-! ## The error channel is not epoch-gated (claim C10) -/

/-- C10: `SetError` stores its error unconditionally — no epoch check,
epoch unchanged — and among the buffer operations only `Reset` clears a
recorded error.  Consequently, after `Reset` has produced a newer epoch,
a superseded stream's `ErrDecodeFailed` is still visible through
`GetError` (and drives `Update` to the Error state during the new
Loading phase) even though that stream's frame writes are rejected. -/
theorem claim_C10_error_not_epoch_gated
    (fb fb2 : video.FrameBuffer) (err e : video.VideoErr)
    (op : video.FBOp) (f : video.Frame)
    (hop : op ≠ .reset) (he : fb2.lastError = some e) :
    (fb.SetError (some err)).lastError = some err ∧
      (fb.SetError (some err)).epoch = fb.epoch ∧
      ((fb.Reset).1).GetError = none ∧
      (op.apply fb2).GetError ≠ none ∧
      video.staleErrBuffer.GetError = some .errDecodeFailed ∧
      (video.staleErrBuffer.Store f 2).2 = false ∧
      (player.Update video.staleErrBuffer player.loadingPlayerState 0
          true).State = .stateError ∧
      (player.Update video.staleErrBuffer player.loadingPlayerState 0
          true).ErrorMsg = "decode failed" := by
  refine ⟨rfl, rfl, rfl, ?_, rfl, ?_, rfl, rfl⟩
  · cases op with
    | reset => exact absurd rfl hop
    | store f' e' =>
      show ((fb2.Store f' e').1).GetError ≠ none
      unfold video.FrameBuffer.Store
      split_ifs <;> simp [video.FrameBuffer.GetError, he]
    | storeForce f' => simp [video.FrameBuffer.GetError,
        video.FrameBuffer.StoreForce, video.FBOp.apply, he]
    | addDropped => simp [video.FrameBuffer.GetError,
        video.FrameBuffer.AddDropped, video.FBOp.apply, he]
    | setError e' => simp [video.FrameBuffer.GetError,
        video.FrameBuffer.SetError, video.FBOp.apply]
  · have hep : video.staleErrBuffer.epoch = 3 := by decide
    unfold video.FrameBuffer.Store
    rw [if_pos (by rw [hep]; omega)]

theorem claim_C10_error_not_epoch_gated_witness :
    ((video.NewFrameBuffer.SetError (some .errDecodeFailed)).SetError
          (some .errDecodeFailed)).lastError = some .errDecodeFailed ∧
      ((video.NewFrameBuffer.SetError (some .errDecodeFailed)).SetError
          (some .errDecodeFailed)).epoch =
        (video.NewFrameBuffer.SetError (some .errDecodeFailed)).epoch ∧
      (((video.NewFrameBuffer.SetError (some .errDecodeFailed)).Reset).1).GetError
        = none ∧
      (video.FBOp.addDropped.apply
          (video.NewFrameBuffer.SetError (some .errDecodeFailed))).GetError
        ≠ none ∧
      video.staleErrBuffer.GetError = some .errDecodeFailed ∧
      (video.staleErrBuffer.Store video.sampleFrame 2).2 = false ∧
      (player.Update video.staleErrBuffer player.loadingPlayerState 0
          true).State = .stateError ∧
      (player.Update video.staleErrBuffer player.loadingPlayerState 0
          true).ErrorMsg = "decode failed" :=
  claim_C10_error_not_epoch_gated
    (video.NewFrameBuffer.SetError (some .errDecodeFailed))
    (video.NewFrameBuffer.SetError (some .errDecodeFailed))
    .errDecodeFailed .errDecodeFailed .addDropped video.sampleFrame
    (by simp) rfl

/-! ## First-read failure handling (claim C4) -/

namespace video

/-- Once at least one frame has been read (`frameNum ≠ 0`), the read
loop never records a decode error, whatever happens later. -/
theorem readLoop_no_errorSet (s : Stream) (fd ps : ℤ)
    (inputs : List LoopInput) :
    ∀ (buf : FrameBuffer) (fn : ℕ) (ct : ℤ), fn ≠ 0 →
      LoopEvent.errorSet ∉ (readLoop s fd ps inputs buf fn ct).2 := by
  induction inputs with
  | nil =>
    intro buf fn ct _
    simp [readLoop]
  | cons inp rest ih =>
    intro buf fn ct hfn
    unfold readLoop
    cases hst : inp.stopped
    · simp only [Bool.false_eq_true, if_false]
      by_cases hep : buf.Epoch ≠ s.epoch
      · simp [hep]
      · simp only [hep, if_false]
        cases hread : inp.read with
        | none => simp [hfn]
        | some src =>
          simp only
          split_ifs
          · simpa using ih _ (fn + 1) _ (by omega)
          · simp
          · simpa using ih _ (fn + 1) _ (by omega)
    · simp

end video

/-- C4: a run of the read loop records `ErrDecodeFailed` on the buffer
exactly when its very first iteration performs a read and that read
fails (with the stream's epoch current); a failure after at least one
read records nothing.  On the player side, `Update` turns a recorded
buffer error into the Error state when in Loading, and leaves the state
untouched otherwise. -/
theorem claim_C4_first_read_failure (s : video.Stream)
    (buffer : video.FrameBuffer) (ps : ℤ) (inputs : List video.LoopInput)
    (buf2 : video.FrameBuffer) (st : player.PlayerState) (now : ℤ)
    (running : Bool) (err : video.VideoErr)
    (hbe : buf2.GetError = some err) :
    (video.LoopEvent.errorSet ∈ (s.ReadFrames buffer ps inputs).2 ↔
        buffer.Epoch = s.epoch ∧ video.firstReadFails inputs = true) ∧
      (buffer.Epoch = s.epoch → video.firstReadFails inputs = true →
        (s.ReadFrames buffer ps inputs).1.GetError =
          some .errDecodeFailed) ∧
      (st.State = .stateLoading →
        player.Update buf2 st now running = player.SetError st err.message) ∧
      (st.State ≠ .stateLoading →
        player.Update buf2 st now running = st) := by
  refine ⟨?_, ?_, ?_, ?_⟩
  · unfold video.Stream.ReadFrames
    cases inputs with
    | nil => simp [video.readLoop, video.firstReadFails]
    | cons inp rest =>
      unfold video.readLoop
      cases hst : inp.stopped
      · simp only [Bool.false_eq_true, if_false]
        by_cases hep : buffer.Epoch ≠ s.epoch
        · simp [hep, video.firstReadFails, hst]
        · simp only [hep, if_false]
          cases hread : inp.read with
          | none => simp [video.firstReadFails, hst, hread, not_not.mp hep]
          | some src =>
            simp only
            split_ifs
            · simpa [video.firstReadFails, hst, hread] using
                video.readLoop_no_errorSet s _ ps rest _ 1 _ (by omega)
            · simp [video.firstReadFails, hst, hread]
            · simpa [video.firstReadFails, hst, hread] using
                video.readLoop_no_errorSet s _ ps rest _ 1 _ (by omega)
      · simp [video.firstReadFails, hst]
  · intro hep hfail
    unfold video.Stream.ReadFrames
    cases inputs with
    | nil => simp [video.firstReadFails] at hfail
    | cons inp rest =>
      unfold video.firstReadFails at hfail
      have hst : inp.stopped = false := by
        cases h : inp.stopped <;> simp [h] at hfail ⊢
      have hread : inp.read = none := by
        cases h : inp.read <;> simp [h, hst] at hfail ⊢
      unfold video.readLoop
      simp [hst, hread, hep, video.FrameBuffer.SetError,
        video.FrameBuffer.GetError]
  · intro hld
    unfold player.Update
    simp only [hbe, hld, if_pos]
  · intro hld
    unfold player.Update
    rw [hbe]
    simp only [if_neg hld]

theorem claim_C4_first_read_failure_witness :
    (video.LoopEvent.errorSet ∈
        (video.bugStream.ReadFrames (video.NewFrameBuffer.Reset).1 0
          video.failInputs).2 ↔
        (video.NewFrameBuffer.Reset).1.Epoch = video.bugStream.epoch ∧
          video.firstReadFails video.failInputs = true) ∧
      ((video.NewFrameBuffer.Reset).1.Epoch = video.bugStream.epoch →
        video.firstReadFails video.failInputs = true →
        (video.bugStream.ReadFrames (video.NewFrameBuffer.Reset).1 0
            video.failInputs).1.GetError = some .errDecodeFailed) ∧
      (player.loadingPlayerState.State = .stateLoading →
        player.Update video.staleErrBuffer player.loadingPlayerState 0 true =
          player.SetError player.loadingPlayerState
            video.VideoErr.errDecodeFailed.message) ∧
      (player.loadingPlayerState.State ≠ .stateLoading →
        player.Update video.staleErrBuffer player.loadingPlayerState 0 true =
          player.loadingPlayerState) :=
  claim_C4_first_read_failure video.bugStream (video.NewFrameBuffer.Reset).1 0
    video.failInputs video.staleErrBuffer player.loadingPlayerState 0 true
    .errDecodeFailed rfl

/-! ## Timestamp ordering within an epoch (claim C2) -/

namespace video

/-- At 25 fps the computed per-frame duration is exactly 40 ms. -/
theorem frameDuration_25 : ratTrunc ((1000000000 : ℚ) / 25) = 40000000 := by
  have h : (1000000000 : ℚ) / 25 = 40000000 := by norm_num
  rw [ratTrunc, h]
  norm_num

end video

/-- C2 (code bug): two consecutive on-time successful reads in a single
epoch store timestamps 0 ns then −40 000 000 ns — the loop executes
`currentTime -= frameDuration` after a store (the drop path uses `+=`),
so stored timestamps strictly decrease instead of being
non-decreasing. -/
theorem claim_C2_timestamps_decrease :
    video.storedTimestamps
        (video.bugStream.ReadFrames (video.NewFrameBuffer.Reset).1 0
          video.bugInputs).2 = [0, -40000000] ∧
      video.nonDecreasing [0, -40000000] = false := by
  constructor
  · have h1 : video.ratTrunc ((1000000000 : ℚ) / video.bugStream.fps) =
        40000000 := video.frameDuration_25
    unfold video.Stream.ReadFrames
    rw [h1]
    decide
  · decide

/-! ## Frame dimension bounds (claim C6) -/

/-- C6: for any screen of at least 4×4 cells and any positive source
aspect, the computed frame width and height are even, at least 4, the
width at most the screen columns, and the height at most
`max (rows − 3) 2 × 2`. -/
theorem claim_C6_frame_dimensions (sw sh mw mh : ℤ)
    (hsw : 4 ≤ sw) (hsh : 4 ≤ sh) (hmw : 0 < mw) (hmh : 0 < mh) :
    2 ∣ (player.CalculateFrameDimensions sw sh mw mh).1 ∧
      2 ∣ (player.CalculateFrameDimensions sw sh mw mh).2 ∧
      4 ≤ (player.CalculateFrameDimensions sw sh mw mh).1 ∧
      4 ≤ (player.CalculateFrameDimensions sw sh mw mh).2 ∧
      (player.CalculateFrameDimensions sw sh mw mh).1 ≤ sw ∧
      (player.CalculateFrameDimensions sw sh mw mh).2 ≤
        max (sh - 3) 2 * 2 := by
  unfold player.CalculateFrameDimensions
  dsimp only
  set A : ℤ := if sh - 3 < 2 then 2 else sh - 3 with hA
  have hA2 : 2 ≤ A := by rw [hA]; split_ifs <;> omega
  have hAmax : A = max (sh - 3) 2 := by rw [hA]; split_ifs <;> omega
  rw [if_pos ⟨hmw, hmh⟩]
  by_cases hasp : sw * mh > mw * (A * 2)
  · rw [if_pos hasp]
    have hv0 : 0 ≤ A * 2 * mw / mh :=
      Int.ediv_nonneg (by positivity) (le_of_lt hmh)
    have hvle : A * 2 * mw / mh ≤ sw := by
      have h1 : A * 2 * mw ≤ sw * mh := by
        calc A * 2 * mw = mw * (A * 2) := by ring
        _ ≤ sw * mh := le_of_lt hasp
      calc A * 2 * mw / mh ≤ sw * mh / mh := Int.ediv_le_ediv hmh h1
      _ = sw := Int.mul_ediv_cancel sw (ne_of_gt hmh)
    dsimp only
    generalize hgen : A * 2 * mw / mh = v at hv0 hvle ⊢
    clear hgen
    unfold player.clamp
    rw [← hAmax]
    split_ifs <;> refine ⟨?_, ?_, ?_, ?_, ?_, ?_⟩ <;> omega
  · rw [if_neg hasp]
    have hv0 : 0 ≤ sw * mh / mw :=
      Int.ediv_nonneg (by positivity) (le_of_lt hmw)
    have hvle : sw * mh / mw ≤ A * 2 := by
      have h1 : sw * mh ≤ mw * (A * 2) := le_of_not_lt hasp
      calc sw * mh / mw ≤ mw * (A * 2) / mw := Int.ediv_le_ediv hmw h1
      _ = A * 2 := Int.mul_ediv_cancel_left (A * 2) (ne_of_gt hmw)
    dsimp only
    generalize hgen : sw * mh / mw = v at hv0 hvle ⊢
    clear hgen
    unfold player.clamp
    rw [← hAmax]
    split_ifs <;> refine ⟨?_, ?_, ?_, ?_, ?_, ?_⟩ <;> omega

theorem claim_C6_frame_dimensions_witness :
    2 ∣ (player.CalculateFrameDimensions 80 24 1920 1080).1 ∧
      2 ∣ (player.CalculateFrameDimensions 80 24 1920 1080).2 ∧
      4 ≤ (player.CalculateFrameDimensions 80 24 1920 1080).1 ∧
      4 ≤ (player.CalculateFrameDimensions 80 24 1920 1080).2 ∧
      (player.CalculateFrameDimensions 80 24 1920 1080).1 ≤ 80 ∧
      (player.CalculateFrameDimensions 80 24 1920 1080).2 ≤
        max ((24 : ℤ) - 3) 2 * 2 :=
  claim_C6_frame_dimensions 80 24 1920 1080
    (by decide) (by decide) (by decide) (by decide)

/-! ## Diff-cache renderer (claim C7) -/

namespace renderer

theorem shiftLeft_lor_eq_add (y x k : ℕ) (h : x < 2 ^ k) :
    y <<< k ||| x = y * 2 ^ k + x := by
  apply Nat.eq_of_testBit_eq
  intro j
  rw [Nat.testBit_lor, Nat.testBit_shiftLeft]
  rcases lt_or_le j k with hj | hj
  · rw [mul_comm, Nat.testBit_mul_pow_two_add _ h, if_pos hj]
    simp [Nat.not_le.mpr hj]
  · rw [mul_comm, Nat.testBit_mul_pow_two_add _ h, if_neg (Nat.not_lt.mpr hj)]
    have hx : x < 2 ^ j := lt_of_lt_of_le h (Nat.pow_le_pow_right (by norm_num) hj)
    simp [Nat.testBit_eq_false_of_lt hx, hj]

theorem packColors_eq (a b c d e f : ℕ)
    (ha : a < 256) (hb : b < 256) (hc : c < 256)
    (hd : d < 256) (he : e < 256) (hf : f < 256) :
    packColors a b c d e f =
      a * 2 ^ 40 + b * 2 ^ 32 + c * 2 ^ 24 + d * 2 ^ 16 + e * 2 ^ 8 + f := by
  unfold packColors
  simp only [Nat.lor_assoc]
  rw [shiftLeft_lor_eq_add e f 8 (by omega)]
  rw [shiftLeft_lor_eq_add d (e * 2 ^ 8 + f) 16 (by omega)]
  rw [shiftLeft_lor_eq_add c _ 24 (by omega)]
  rw [shiftLeft_lor_eq_add b _ 32 (by omega)]
  rw [shiftLeft_lor_eq_add a _ 40 (by omega)]
  omega

theorem packColors_lt (a b c d e f : ℕ)
    (ha : a < 256) (hb : b < 256) (hc : c < 256)
    (hd : d < 256) (he : e < 256) (hf : f < 256) :
    packColors a b c d e f < 2 ^ 48 := by
  rw [packColors_eq a b c d e f ha hb hc hd he hf]
  omega

theorem packColors_inj {a b c d e f a' b' c' d' e' f' : ℕ}
    (ha : a < 256) (hb : b < 256) (hc : c < 256)
    (hd : d < 256) (he : e < 256) (hf : f < 256)
    (ha' : a' < 256) (hb' : b' < 256) (hc' : c' < 256)
    (hd' : d' < 256) (he' : e' < 256) (hf' : f' < 256)
    (h : packColors a b c d e f = packColors a' b' c' d' e' f') :
    a = a' ∧ b = b' ∧ c = c' ∧ d = d' ∧ e = e' ∧ f = f' := by
  rw [packColors_eq a b c d e f ha hb hc hd he hf,
    packColors_eq a' b' c' d' e' f' ha' hb' hc' hd' he' hf'] at h
  omega

theorem packColors_ne_sentinel (a b c d e f : Fin 256) :
    packColors ↑a ↑b ↑c ↑d ↑e ↑f ≠ sentinel := by
  have h := packColors_lt ↑a ↑b ↑c ↑d ↑e ↑f
    a.isLt b.isLt c.isLt d.isLt e.isLt f.isLt
  unfold sentinel
  omega

/-- If the key of a cell agrees, all six bytes agree. -/
theorem cellColors_eq_of_cellKey_eq {img1 img2 : video.RGBAImage}
    {px py px' py' : ℕ}
    (h : cellKey img2 px py = cellKey img1 px' py') :
    cellColors img2 px py = cellColors img1 px' py' := by
  unfold cellKey at h
  obtain ⟨h1, h2, h3, h4, h5, h6⟩ :=
    packColors_inj (Fin.isLt _) (Fin.isLt _) (Fin.isLt _) (Fin.isLt _)
      (Fin.isLt _) (Fin.isLt _) (Fin.isLt _) (Fin.isLt _) (Fin.isLt _)
      (Fin.isLt _) (Fin.isLt _) (Fin.isLt _) h
  exact Prod.ext (Fin.val_injective h1) (Prod.ext (Fin.val_injective h2)
    (Prod.ext (Fin.val_injective h3) (Prod.ext (Fin.val_injective h4)
      (Prod.ext (Fin.val_injective h5) (Fin.val_injective h6)))))

theorem getD_set_ne (l : List ℕ) (i j : ℕ) (v : ℕ) (h : i ≠ j) :
    (l.set i v).getD j 0 = l.getD j 0 := by
  rw [List.getD_eq_getElem?_getD, List.getD_eq_getElem?_getD,
    List.getElem?_set, if_neg h]

theorem getD_set_eval (l : List ℕ) (i : ℕ) (v : ℕ) :
    (l.set i v).getD i 0 = if i < l.length then v else l.getD i 0 := by
  rw [List.getD_eq_getElem?_getD, List.getElem?_set, if_pos rfl]
  split_ifs with h
  · rfl
  · rw [List.getD_eq_getElem?_getD, List.getElem?_eq_none (by omega)]

theorem getD_replicate_eval (n : ℕ) (a j : ℕ) :
    (List.replicate n a).getD j 0 = if j < n then a else 0 := by
  rw [List.getD_eq_getElem?_getD, List.getElem?_replicate]
  split_ifs <;> rfl

theorem renderCells_cons_out (img : video.RGBAImage) (sw ox cellY : ℤ)
    (py px : ℕ) (rest : List ℕ) (idx : ℕ) (cells : List ℕ)
    (h : ox + (px : ℤ) < 0 ∨ ox + (px : ℤ) ≥ sw) :
    renderCells img sw ox cellY py (px :: rest) idx cells =
      renderCells img sw ox cellY py rest (idx + 1) cells := by
  simp only [renderCells]
  rw [if_pos h]

theorem renderCells_cons_hit (img : video.RGBAImage) (sw ox cellY : ℤ)
    (py px : ℕ) (rest : List ℕ) (idx : ℕ) (cells : List ℕ)
    (h : ¬(ox + (px : ℤ) < 0 ∨ ox + (px : ℤ) ≥ sw))
    (hh : idx < cells.length ∧ cells.getD idx 0 = cellKey img px py) :
    renderCells img sw ox cellY py (px :: rest) idx cells =
      renderCells img sw ox cellY py rest (idx + 1) cells := by
  simp only [renderCells]
  rw [if_neg h, if_pos hh]

theorem renderCells_cons_miss (img : video.RGBAImage) (sw ox cellY : ℤ)
    (py px : ℕ) (rest : List ℕ) (idx : ℕ) (cells : List ℕ)
    (h : ¬(ox + (px : ℤ) < 0 ∨ ox + (px : ℤ) ≥ sw))
    (hh : ¬(idx < cells.length ∧ cells.getD idx 0 = cellKey img px py)) :
    renderCells img sw ox cellY py (px :: rest) idx cells =
      ((renderCells img sw ox cellY py rest (idx + 1)
          (cells.set idx (cellKey img px py))).1,
        (renderCells img sw ox cellY py rest (idx + 1)
          (cells.set idx (cellKey img px py))).2.1,
        mkWrite img (ox + (px : ℤ)) cellY px py ::
          (renderCells img sw ox cellY py rest (idx + 1)
            (cells.set idx (cellKey img px py))).2.2) := by
  simp only [renderCells]
  rw [if_neg h, if_neg hh]

theorem renderRows_cons_out (img : video.RGBAImage) (sw sh ox oy : ℤ)
    (cy : ℕ) (rest : List ℕ) (idx : ℕ) (cells : List ℕ)
    (h : oy + (cy : ℤ) < 0 ∨ oy + (cy : ℤ) ≥ sh) :
    renderRows img sw sh ox oy (cy :: rest) idx cells =
      renderRows img sw sh ox oy rest (idx + img.w) cells := by
  simp only [renderRows]
  rw [if_pos h]

theorem renderRows_cons_in (img : video.RGBAImage) (sw sh ox oy : ℤ)
    (cy : ℕ) (rest : List ℕ) (idx : ℕ) (cells : List ℕ)
    (h : ¬(oy + (cy : ℤ) < 0 ∨ oy + (cy : ℤ) ≥ sh)) :
    renderRows img sw sh ox oy (cy :: rest) idx cells =
      ((renderRows img sw sh ox oy rest
          (renderCells img sw ox (oy + (cy : ℤ)) (2 * cy) (List.range img.w)
            idx cells).2.1
          (renderCells img sw ox (oy + (cy : ℤ)) (2 * cy) (List.range img.w)
            idx cells).1).1,
        (renderCells img sw ox (oy + (cy : ℤ)) (2 * cy) (List.range img.w)
            idx cells).2.2 ++
          (renderRows img sw sh ox oy rest
            (renderCells img sw ox (oy + (cy : ℤ)) (2 * cy) (List.range img.w)
              idx cells).2.1
            (renderCells img sw ox (oy + (cy : ℤ)) (2 * cy) (List.range img.w)
              idx cells).1).2) := by
  simp only [renderRows]
  rw [if_neg h]

/-- Full characterization of the inner loop on a contiguous column
range: final index, cache length, the writes as a `filterMap` over the
original cache, and the final cache pointwise. -/
theorem renderCells_spec (img : video.RGBAImage) (sw ox cellY : ℤ)
    (py d : ℕ) :
    ∀ (n a : ℕ) (cells : List ℕ),
      (renderCells img sw ox cellY py (List.range' a n) (d + a) cells).2.1 =
          d + a + n ∧
        (renderCells img sw ox cellY py (List.range' a n) (d + a)
            cells).1.length = cells.length ∧
        (renderCells img sw ox cellY py (List.range' a n) (d + a)
            cells).2.2 =
          (List.range' a n).filterMap (fun px : ℕ =>
            if 0 ≤ ox + (px : ℤ) ∧ ox + (px : ℤ) < sw ∧
                ¬(d + px < cells.length ∧
                  cells.getD (d + px) 0 = cellKey img px py) then
              some (mkWrite img (ox + (px : ℤ)) cellY px py)
            else none) ∧
        ∀ j : ℕ,
          (renderCells img sw ox cellY py (List.range' a n) (d + a)
              cells).1.getD j 0 =
            if d + a ≤ j ∧ j < d + a + n ∧ 0 ≤ ox + ((j - d : ℕ) : ℤ) ∧
                ox + ((j - d : ℕ) : ℤ) < sw ∧ j < cells.length then
              cellKey img (j - d) py
            else cells.getD j 0 := by
  intro n
  induction n with
  | zero =>
    intro a cells
    refine ⟨rfl, rfl, rfl, ?_⟩
    intro j
    rw [if_neg (by omega)]
    rfl
  | succ n ih =>
    intro a cells
    rw [List.range'_succ]
    by_cases hout : ox + (a : ℤ) < 0 ∨ ox + (a : ℤ) ≥ sw
    · rw [renderCells_cons_out img sw ox cellY py a _ _ cells hout]
      obtain ⟨ih1, ih2, ih3, ih4⟩ := ih (a + 1) cells
      refine ⟨by rw [show d + a + 1 = d + (a + 1) from rfl, ih1]; omega,
        by rw [show d + a + 1 = d + (a + 1) from rfl, ih2], ?_, ?_⟩
      · rw [show d + a + 1 = d + (a + 1) from rfl, ih3,
          List.filterMap_cons]
        have hng : ¬(0 ≤ ox + (a : ℤ) ∧ ox + (a : ℤ) < sw ∧
            ¬(d + a < cells.length ∧
              cells.getD (d + a) 0 = cellKey img a py)) := by
          intro ⟨hin1, hin2, _⟩
          rcases hout with h | h <;> omega
        rw [if_neg hng]
      · intro j
        rw [show d + a + 1 = d + (a + 1) from rfl, ih4 j]
        by_cases hj : j = d + a
        · subst hj
          simp only [Nat.add_sub_cancel_left]
          split_ifs with h1 h2 h2 <;> first | rfl | (exfalso; omega)
        · split_ifs with h1 h2 h2 <;> first | rfl | (exfalso; omega)
    · have hin1 : 0 ≤ ox + (a : ℤ) := by omega
      have hin2 : ox + (a : ℤ) < sw := by omega
      by_cases hhit : d + a < cells.length ∧
          cells.getD (d + a) 0 = cellKey img a py
      · rw [renderCells_cons_hit img sw ox cellY py a _ _ cells hout hhit]
        obtain ⟨ih1, ih2, ih3, ih4⟩ := ih (a + 1) cells
        refine ⟨by rw [show d + a + 1 = d + (a + 1) from rfl, ih1]; omega,
          by rw [show d + a + 1 = d + (a + 1) from rfl, ih2], ?_, ?_⟩
        · rw [show d + a + 1 = d + (a + 1) from rfl, ih3,
            List.filterMap_cons]
          rw [if_neg (by intro ⟨_, _, hno⟩; exact hno hhit)]
        · intro j
          rw [show d + a + 1 = d + (a + 1) from rfl, ih4 j]
          by_cases hj : j = d + a
          · subst hj
            simp only [Nat.add_sub_cancel_left]
            split_ifs with h1 h2 h2 <;>
              first | rfl | (exact hhit.2) | (exact hhit.2.symm) |
                (exfalso; omega)
          · split_ifs with h1 h2 h2 <;> first | rfl | (exfalso; omega)
      · rw [renderCells_cons_miss img sw ox cellY py a _ _ cells hout hhit]
        obtain ⟨ih1, ih2, ih3, ih4⟩ :=
          ih (a + 1) (cells.set (d + a) (cellKey img a py))
        refine ⟨by rw [show d + a + 1 = d + (a + 1) from rfl, ih1]; omega,
          by rw [show d + a + 1 = d + (a + 1) from rfl, ih2,
            List.length_set], ?_, ?_⟩
        · rw [show d + a + 1 = d + (a + 1) from rfl, ih3,
            List.filterMap_cons]
          rw [if_pos ⟨hin1, hin2, hhit⟩]
          dsimp only
          congr 1
          apply List.filterMap_congr
          intro px hpx
          have hpx1 : a + 1 ≤ px := (List.mem_range'_1.mp hpx).1
          rw [List.length_set, getD_set_ne _ _ _ _ (by omega)]
        · intro j
          rw [show d + a + 1 = d + (a + 1) from rfl, ih4 j,
            List.length_set]
          by_cases hj : j = d + a
          · subst hj
            simp only [Nat.add_sub_cancel_left]
            rw [if_neg (by omega), getD_set_eval]
            split_ifs with h1 h2 h2 <;> first | rfl | (exfalso; omega)
          · rw [getD_set_ne _ _ _ _ (fun hdj => hj hdj.symm)]
            split_ifs with h1 h2 h2 <;> first | rfl | (exfalso; omega)

theorem rows_div_mod {w c j : ℕ} (hw : 0 < w) (h1 : w * c ≤ j)
    (h2 : j < w * (c + 1)) : j / w = c ∧ j % w = j - w * c := by
  obtain ⟨r, hr⟩ : ∃ r, j = w * c + r := ⟨j - w * c, by omega⟩
  have hmul : w * (c + 1) = w * c + w := by ring
  have hrw : r < w := by omega
  subst hr
  rw [Nat.mul_add_div hw, Nat.div_eq_of_lt hrw, Nat.mul_add_mod,
    Nat.mod_eq_of_lt hrw]
  omega

set_option maxHeartbeats 2000000 in
/-- Full characterization of the outer loop on a contiguous row range
entered at its natural index `img.w * c`: cache length, the writes as a
`flatMap` over the original cache, and the final cache pointwise. -/
theorem renderRows_spec (img : video.RGBAImage) (sw sh ox oy : ℤ)
    (hw : 0 < img.w) :
    ∀ (m c : ℕ) (cells : List ℕ),
      (renderRows img sw sh ox oy (List.range' c m) (img.w * c)
          cells).1.length = cells.length ∧
        (renderRows img sw sh ox oy (List.range' c m) (img.w * c)
            cells).2 =
          (List.range' c m).flatMap (fun cy : ℕ =>
            if 0 ≤ oy + (cy : ℤ) ∧ oy + (cy : ℤ) < sh then
              (List.range img.w).filterMap (fun px : ℕ =>
                if 0 ≤ ox + (px : ℤ) ∧ ox + (px : ℤ) < sw ∧
                    ¬(img.w * cy + px < cells.length ∧
                      cells.getD (img.w * cy + px) 0 =
                        cellKey img px (2 * cy)) then
                  some (mkWrite img (ox + (px : ℤ)) (oy + (cy : ℤ)) px
                    (2 * cy))
                else none)
            else []) ∧
        ∀ j : ℕ,
          (renderRows img sw sh ox oy (List.range' c m) (img.w * c)
              cells).1.getD j 0 =
            if img.w * c ≤ j ∧ j < img.w * (c + m) ∧
                0 ≤ oy + ((j / img.w : ℕ) : ℤ) ∧
                oy + ((j / img.w : ℕ) : ℤ) < sh ∧
                0 ≤ ox + ((j % img.w : ℕ) : ℤ) ∧
                ox + ((j % img.w : ℕ) : ℤ) < sw ∧ j < cells.length then
              cellKey img (j % img.w) (2 * (j / img.w))
            else cells.getD j 0 := by
  intro m
  induction m with
  | zero =>
    intro c cells
    refine ⟨rfl, rfl, ?_⟩
    intro j
    have e0 : img.w * (c + 0) = img.w * c := by ring
    rw [e0, if_neg (by omega)]
    rfl
  | succ m ih =>
    intro c cells
    rw [List.range'_succ]
    have e1 : img.w * (c + 1) = img.w * c + img.w := by ring
    have e2 : img.w * (c + (m + 1)) = img.w * c + img.w + img.w * m := by
      ring
    have e3 : img.w * (c + 1 + m) = img.w * c + img.w + img.w * m := by
      ring
    by_cases hrow : oy + (c : ℤ) < 0 ∨ oy + (c : ℤ) ≥ sh
    · rw [renderRows_cons_out img sw sh ox oy c _ _ cells hrow]
      rw [show img.w * c + img.w = img.w * (c + 1) from e1.symm]
      obtain ⟨ih1, ih2, ih3⟩ := ih (c + 1) cells
      refine ⟨ih1, ?_, ?_⟩
      · rw [ih2, List.flatMap_cons]
        try dsimp only
        rw [if_neg (by intro ⟨hb1, hb2⟩; rcases hrow with h | h <;> omega),
          List.nil_append]
      · intro j
        rw [ih3 j]
        by_cases hj1 : img.w * c ≤ j ∧ j < img.w * (c + 1)
        · obtain ⟨hdiv, _⟩ := rows_div_mod hw hj1.1 (e1 ▸ hj1.2)
          rw [hdiv]
          split_ifs with h1 h2 h2 <;> first | (exfalso; omega) | rfl
        · split_ifs with h1 h2 h2 <;> first | (exfalso; omega) | rfl
    · have hr1 : 0 ≤ oy + (c : ℤ) := by omega
      have hr2 : oy + (c : ℤ) < sh := by omega
      rw [renderRows_cons_in img sw sh ox oy c _ _ cells hrow]
      have hcol := renderCells_spec img sw ox (oy + (c : ℤ)) (2 * c)
        (img.w * c) img.w 0 cells
      rw [Nat.add_zero, ← List.range_eq_range'] at hcol
      obtain ⟨hc1, hc2, hc3, hc4⟩ := hcol
      generalize hK : renderCells img sw ox (oy + (c : ℤ)) (2 * c)
        (List.range img.w) (img.w * c) cells = K
        at hc1 hc2 hc3 hc4 ⊢
      rw [hc1, show img.w * c + img.w = img.w * (c + 1) from e1.symm]
      obtain ⟨ih1, ih2, ih3⟩ := ih (c + 1) K.1
      refine ⟨by rw [ih1, hc2], ?_, ?_⟩
      · rw [ih2, hc3, List.flatMap_cons]
        try dsimp only
        rw [if_pos ⟨hr1, hr2⟩]
        congr 1
        apply List.flatMap_congr
        intro cy hcy
        have hcy1 : c + 1 ≤ cy := (List.mem_range'_1.mp hcy).1
        have hwc : img.w * (c + 1) ≤ img.w * cy := Nat.mul_le_mul_left _ hcy1
        split_ifs with hri
        · apply List.filterMap_congr
          intro px hpx
          have hpxw : px < img.w := List.mem_range.mp hpx
          have huntouched : K.1.getD (img.w * cy + px) 0 =
              cells.getD (img.w * cy + px) 0 := by
            rw [hc4 (img.w * cy + px), if_neg (by omega)]
          rw [hc2, huntouched]
        · rfl
      · intro j
        rw [ih3 j, hc2, hc4 j]
        by_cases hj1 : img.w * c ≤ j ∧ j < img.w * (c + 1)
        · obtain ⟨hdiv, hmod⟩ := rows_div_mod hw hj1.1 (e1 ▸ hj1.2)
          rw [hdiv, hmod]
          split_ifs with h1 h2 h3 h3 <;>
            first | (exfalso; omega) | rfl
        · split_ifs with h1 h2 h3 h3 <;>
            first | (exfalso; omega) | rfl

theorem renderCache_length (r : Renderer) (img : video.RGBAImage) :
    (renderCache r img).length = img.w * ((img.h + 1) / 2) := by
  unfold renderCache
  split_ifs with h
  · exact List.length_replicate _ _
  · push_neg at h
    exact h.1

theorem renderCache_of_matching (r' : Renderer) (img : video.RGBAImage)
    (h1 : r'.prevCells.length = img.w * ((img.h + 1) / 2))
    (h2 : r'.prevW = img.w) (h3 : r'.prevH = (img.h + 1) / 2) :
    renderCache r' img = r'.prevCells := by
  unfold renderCache
  rw [if_neg (by push_neg; exact ⟨h1, h2, h3⟩)]

theorem RenderImage_fields (r : Renderer) (img? : Option video.RGBAImage)
    (ox oy : ℤ) :
    (RenderImage r img? ox oy).1.hasScreen = r.hasScreen ∧
      (RenderImage r img? ox oy).1.closed = r.closed ∧
      (RenderImage r img? ox oy).1.screenW = r.screenW ∧
      (RenderImage r img? ox oy).1.screenH = r.screenH := by
  cases img? with
  | none => exact ⟨rfl, rfl, rfl, rfl⟩
  | some img =>
    simp only [RenderImage]
    split_ifs <;> exact ⟨rfl, rfl, rfl, rfl⟩

/-- On the main path, `RenderImage` runs the row loop from index 0 on
the managed cache and stores the resulting cache and grid shape. -/
theorem RenderImage_main (r : Renderer) (img : video.RGBAImage)
    (ox oy : ℤ) (hs : r.hasScreen = true) (hc : r.closed = false)
    (hw : img.w ≠ 0) (hh : img.h ≠ 0)
    (hsw : ¬r.screenW ≤ 0) (hsh : ¬r.screenH ≤ 0) :
    RenderImage r (some img) ox oy =
      ({ r with
          prevCells := (renderRows img r.screenW r.screenH ox oy
            (List.range ((img.h + 1) / 2)) 0 (renderCache r img)).1,
          prevW := img.w, prevH := (img.h + 1) / 2 },
        (renderRows img r.screenW r.screenH ox oy
          (List.range ((img.h + 1) / 2)) 0 (renderCache r img)).2) := by
  simp only [RenderImage, renderCache]
  rw [if_neg (by simp [hs, hc]), if_neg (by omega), if_neg (by omega)]

/-- Rendering the same image twice in a row issues no cell writes on
the second pass. -/
theorem renderImage_idempotent (r : Renderer)
    (img? : Option video.RGBAImage) (ox oy : ℤ) :
    (RenderImage (RenderImage r img? ox oy).1 img? ox oy).2 = [] := by
  cases img? with
  | none => rfl
  | some img =>
    by_cases hg1 : r.hasScreen = false ∨ r.closed
    · rw [show RenderImage r (some img) ox oy = (r, []) from by
        simp only [RenderImage]; rw [if_pos hg1]]
      simp only [RenderImage]
      rw [if_pos hg1]
    · by_cases hg2 : img.w = 0 ∨ img.h = 0
      · rw [show RenderImage r (some img) ox oy = (r, []) from by
          simp only [RenderImage]; rw [if_neg hg1, if_pos hg2]]
        simp only [RenderImage]
        rw [if_neg hg1, if_pos hg2]
      · by_cases hg3 : r.screenW ≤ 0 ∨ r.screenH ≤ 0
        · rw [show RenderImage r (some img) ox oy = (r, []) from by
            simp only [RenderImage]
            rw [if_neg hg1, if_neg hg2, if_pos hg3]]
          simp only [RenderImage]
          rw [if_neg hg1, if_neg hg2, if_pos hg3]
        · obtain ⟨hg1a, hg1b⟩ := not_or.mp hg1
          have hs : r.hasScreen = true := by
            cases h : r.hasScreen
            · exact absurd h hg1a
            · rfl
          have hc : r.closed = false := by
            cases h : r.closed
            · rfl
            · exact absurd (by simp [h]) hg1b
          have hw : img.w ≠ 0 := fun h => hg2 (Or.inl h)
          have hh : img.h ≠ 0 := fun h => hg2 (Or.inr h)
          have hw0 : 0 < img.w := Nat.pos_of_ne_zero hw
          rw [RenderImage_main r img ox oy hs hc hw hh
            (fun h => hg3 (Or.inl h)) (fun h => hg3 (Or.inr h))]
          have hrows0 := renderRows_spec img r.screenW r.screenH ox oy hw0
            ((img.h + 1) / 2) 0 (renderCache r img)
          simp only [Nat.mul_zero, Nat.zero_add, ← List.range_eq_range']
            at hrows0
          obtain ⟨hlen0, _, hpt0⟩ := hrows0
          dsimp only
          rw [RenderImage_main
            ({ r with
                prevCells := (renderRows img r.screenW r.screenH ox oy
                  (List.range ((img.h + 1) / 2)) 0 (renderCache r img)).1,
                prevW := img.w, prevH := (img.h + 1) / 2 })
            img ox oy hs hc hw hh
            (fun h => hg3 (Or.inl h)) (fun h => hg3 (Or.inr h))]
          dsimp only
          rw [renderCache_of_matching _ img
            (by dsimp only; rw [hlen0, renderCache_length]) rfl rfl]
          dsimp only
          have hrows1 := renderRows_spec img r.screenW r.screenH ox oy hw0
            ((img.h + 1) / 2) 0
            ((renderRows img r.screenW r.screenH ox oy
              (List.range ((img.h + 1) / 2)) 0 (renderCache r img)).1)
          simp only [Nat.mul_zero, Nat.zero_add, ← List.range_eq_range']
            at hrows1
          rw [hrows1.2.1]
          rw [List.flatMap_eq_nil_iff]
          intro cy hcy
          have hcyb : cy < (img.h + 1) / 2 := List.mem_range.mp hcy
          split_ifs with hrowin
          · rw [List.filterMap_eq_nil_iff]
            intro px hpx
            have hpxb : px < img.w := List.mem_range.mp hpx
            rw [if_neg]
            intro ⟨hx1, hx2, hno⟩
            apply hno
            have hjlt : img.w * cy + px < img.w * ((img.h + 1) / 2) := by
              have h1 : img.w * (cy + 1) ≤ img.w * ((img.h + 1) / 2) :=
                Nat.mul_le_mul_left _ hcyb
              have h2 : img.w * (cy + 1) = img.w * cy + img.w := by ring
              omega
            obtain ⟨hdiv, hmod⟩ := rows_div_mod hw0
              (Nat.le_add_right (img.w * cy) px) (by
                have h2 : img.w * (cy + 1) = img.w * cy + img.w := by ring
                omega)
            constructor
            · rw [hlen0, renderCache_length]
              exact hjlt
            · rw [hpt0 (img.w * cy + px), if_pos]
              · rw [hdiv, hmod]
                congr 1
                omega
              · rw [hdiv, hmod, renderCache_length]
                refine ⟨by omega, by omega, ?_, ?_, ?_, ?_, hjlt⟩
                · exact hrowin.1
                · exact hrowin.2
                · have : img.w * cy + px - img.w * cy = px := by omega
                  rw [this]
                  exact hx1
                · have : img.w * cy + px - img.w * cy = px := by omega
                  rw [this]
                  exact hx2
          · rfl

/-- Distinct pixels of a stride-`4*w` image occupy disjoint byte
ranges: a byte of pixel `(x, y)` lies strictly outside the three color
bytes of pixel `(x0, y0)`. -/
theorem offset_untouched {w x x0 y y0 t : ℕ} (hx : x < w) (hx0 : x0 < w)
    (ht : t ≤ 2) (hne : ¬(x = x0 ∧ y = y0)) :
    y * (4 * w) + x * 4 + t < y0 * (4 * w) + x0 * 4 ∨
      y0 * (4 * w) + x0 * 4 + 2 < y * (4 * w) + x * 4 + t := by
  rcases Nat.lt_trichotomy y y0 with hy | hy | hy
  · left
    have h2 : (y + 1) * (4 * w) ≤ y0 * (4 * w) := Nat.mul_le_mul_right _ hy
    have h3 : (y + 1) * (4 * w) = y * (4 * w) + 4 * w := by ring
    omega
  · subst hy
    have hxx : x ≠ x0 := fun hxe => hne ⟨hxe, rfl⟩
    rcases Nat.lt_or_ge x x0 with hx2 | hx2
    · left; omega
    · right; omega
  · right
    have h2 : (y0 + 1) * (4 * w) ≤ y * (4 * w) := Nat.mul_le_mul_right _ hy
    have h3 : (y0 + 1) * (4 * w) = y0 * (4 * w) + 4 * w := by ring
    omega

theorem cellColors_fst (img : video.RGBAImage) (px py : ℕ) :
    (cellColors img px py).1 = img.pix (py * img.stride + px * 4) := by
  unfold cellColors
  dsimp only
  split_ifs <;> rfl

theorem cellColors_snd (img : video.RGBAImage) (px py : ℕ) :
    (cellColors img px py).2.1 = img.pix (py * img.stride + px * 4 + 1) := by
  unfold cellColors
  dsimp only
  split_ifs <;> rfl

theorem cellColors_trd (img : video.RGBAImage) (px py : ℕ) :
    (cellColors img px py).2.2.1 =
      img.pix (py * img.stride + px * 4 + 2) := by
  unfold cellColors
  dsimp only
  split_ifs <;> rfl

theorem cellColors_b1 (img : video.RGBAImage) (px py : ℕ) :
    (cellColors img px py).2.2.2.1 =
      if py + 1 < img.h then
        img.pix (py * img.stride + img.stride + px * 4)
      else img.pix (py * img.stride + px * 4) := by
  unfold cellColors
  dsimp only
  split_ifs <;> rfl

theorem cellColors_b2 (img : video.RGBAImage) (px py : ℕ) :
    (cellColors img px py).2.2.2.2.1 =
      if py + 1 < img.h then
        img.pix (py * img.stride + img.stride + px * 4 + 1)
      else img.pix (py * img.stride + px * 4 + 1) := by
  unfold cellColors
  dsimp only
  split_ifs <;> rfl

theorem cellColors_b3 (img : video.RGBAImage) (px py : ℕ) :
    (cellColors img px py).2.2.2.2.2 =
      if py + 1 < img.h then
        img.pix (py * img.stride + img.stride + px * 4 + 2)
      else img.pix (py * img.stride + px * 4 + 2) := by
  unfold cellColors
  dsimp only
  split_ifs <;> rfl

/-- Cells not containing the changed pixel read only unchanged bytes,
so their keys agree between the two images. -/
theorem cellKey_congr_of_untouched (w h : ℕ) (p1 p2 : ℕ → Fin 256)
    (x0 y0 px cy : ℕ) (hx0 : x0 < w) (hpx : px < w)
    (hne : ¬(px = x0 ∧ cy = y0 / 2))
    (hpix : ∀ i : ℕ,
      i < y0 * (4 * w) + x0 * 4 ∨ y0 * (4 * w) + x0 * 4 + 2 < i →
      p2 i = p1 i) :
    cellKey ⟨w, h, 4 * w, p2⟩ px (2 * cy) =
      cellKey ⟨w, h, 4 * w, p1⟩ px (2 * cy) := by
  have hneTop : ¬(px = x0 ∧ 2 * cy = y0) := fun ⟨h1, h2⟩ =>
    hne ⟨h1, by omega⟩
  have hneBot : ¬(px = x0 ∧ 2 * cy + 1 = y0) := fun ⟨h1, h2⟩ =>
    hne ⟨h1, by omega⟩
  have htop : ∀ t : ℕ, t ≤ 2 →
      p2 (2 * cy * (4 * w) + px * 4 + t) =
        p1 (2 * cy * (4 * w) + px * 4 + t) := by
    intro t ht
    exact hpix _ (offset_untouched hpx hx0 ht hneTop)
  have hbot : ∀ t : ℕ, t ≤ 2 →
      p2 (2 * cy * (4 * w) + 4 * w + px * 4 + t) =
        p1 (2 * cy * (4 * w) + 4 * w + px * 4 + t) := by
    intro t ht
    have hoff := offset_untouched (y := 2 * cy + 1) hpx hx0 ht hneBot
    have e : (2 * cy + 1) * (4 * w) + px * 4 + t =
        2 * cy * (4 * w) + 4 * w + px * 4 + t := by ring
    rw [e] at hoff
    exact hpix _ hoff
  unfold cellKey cellColors
  dsimp only
  have h0 := htop 0 (by omega)
  have h1 := htop 1 (by omega)
  have h2 := htop 2 (by omega)
  have b0 := hbot 0 (by omega)
  have b1 := hbot 1 (by omega)
  have b2 := hbot 2 (by omega)
  rw [Nat.add_zero] at h0 b0
  split_ifs with hb
  · rw [h0, h1, h2, b0, b1, b2]
  · rw [h0, h1, h2]

/-- The cell containing the changed pixel has a different key. -/
theorem cellKey_ne_changed (w h x0 y0 : ℕ) (p1 p2 : ℕ → Fin 256)
    (hy0 : y0 < h)
    (hdiff : ¬(p2 (y0 * (4 * w) + x0 * 4) = p1 (y0 * (4 * w) + x0 * 4) ∧
      p2 (y0 * (4 * w) + x0 * 4 + 1) = p1 (y0 * (4 * w) + x0 * 4 + 1) ∧
      p2 (y0 * (4 * w) + x0 * 4 + 2) =
        p1 (y0 * (4 * w) + x0 * 4 + 2))) :
    cellKey ⟨w, h, 4 * w, p2⟩ x0 (2 * (y0 / 2)) ≠
      cellKey ⟨w, h, 4 * w, p1⟩ x0 (2 * (y0 / 2)) := by
  intro hkey
  have hcc := cellColors_eq_of_cellKey_eq hkey
  rcases Nat.even_or_odd y0 with he | ho
  · have hpar : y0 % 2 = 0 := Nat.even_iff.mp he
    have e : 2 * (y0 / 2) = y0 := by omega
    apply hdiff
    refine ⟨?_, ?_, ?_⟩
    · have c1 := congrArg (fun q => q.1) hcc
      dsimp only at c1
      rw [cellColors_fst, cellColors_fst] at c1
      dsimp only at c1
      rw [e] at c1
      exact c1
    · have c1 := congrArg (fun q => q.2.1) hcc
      dsimp only at c1
      rw [cellColors_snd, cellColors_snd] at c1
      dsimp only at c1
      rw [e] at c1
      exact c1
    · have c1 := congrArg (fun q => q.2.2.1) hcc
      dsimp only at c1
      rw [cellColors_trd, cellColors_trd] at c1
      dsimp only at c1
      rw [e] at c1
      exact c1
  · have hpar : y0 % 2 = 1 := Nat.odd_iff.mp ho
    have e1 : 2 * (y0 / 2) + 1 = y0 := by omega
    have hbotlt : 2 * (y0 / 2) + 1 < h := by omega
    have e2 : 2 * (y0 / 2) * (4 * w) + 4 * w + x0 * 4 =
        y0 * (4 * w) + x0 * 4 := by
      calc 2 * (y0 / 2) * (4 * w) + 4 * w + x0 * 4 =
          (2 * (y0 / 2) + 1) * (4 * w) + x0 * 4 := by ring
      _ = y0 * (4 * w) + x0 * 4 := by rw [e1]
    apply hdiff
    refine ⟨?_, ?_, ?_⟩
    · have c1 := congrArg (fun q => q.2.2.2.1) hcc
      dsimp only at c1
      rw [cellColors_b1, cellColors_b1] at c1
      dsimp only at c1
      rw [if_pos hbotlt, if_pos hbotlt, e2] at c1
      exact c1
    · have c1 := congrArg (fun q => q.2.2.2.2.1) hcc
      dsimp only at c1
      rw [cellColors_b2, cellColors_b2] at c1
      dsimp only at c1
      rw [if_pos hbotlt, if_pos hbotlt] at c1
      rw [show 2 * (y0 / 2) * (4 * w) + 4 * w + x0 * 4 + 1 =
        y0 * (4 * w) + x0 * 4 + 1 from by omega] at c1
      exact c1
    · have c1 := congrArg (fun q => q.2.2.2.2.2) hcc
      dsimp only at c1
      rw [cellColors_b3, cellColors_b3] at c1
      dsimp only at c1
      rw [if_pos hbotlt, if_pos hbotlt] at c1
      rw [show 2 * (y0 / 2) * (4 * w) + 4 * w + x0 * 4 + 2 =
        y0 * (4 * w) + x0 * 4 + 2 from by omega] at c1
      exact c1

theorem cellKey_ne_sentinel (img : video.RGBAImage) (px py : ℕ) :
    cellKey img px py ≠ sentinel := by
  unfold cellKey
  exact packColors_ne_sentinel _ _ _ _ _ _

theorem range_filterMap_single {α : Type} (f : ℕ → Option α) :
    ∀ (n k : ℕ), k < n → (∀ i, i < n → i ≠ k → f i = none) →
      (List.range n).filterMap f = (f k).toList := by
  intro n
  induction n with
  | zero => omega
  | succ n ih =>
    intro k hk h
    rw [List.range_succ, List.filterMap_append]
    rcases Nat.lt_or_ge k n with hk2 | hk2
    · rw [ih k hk2 (fun i hi hne => h i (by omega) hne)]
      have hfn : f n = none := h n (by omega) (by omega)
      simp [List.filterMap_cons, hfn]
    · have hkn : k = n := by omega
      subst hkn
      rw [List.filterMap_eq_nil_iff.mpr
        (fun i hi => h i (by
          have := List.mem_range.mp hi
          omega) (by
          have := List.mem_range.mp hi
          omega))]
      cases hfk : f k <;> simp [List.filterMap_cons, hfk]

theorem range_flatMap_single {α : Type} (g : ℕ → List α) :
    ∀ (n k : ℕ), k < n → (∀ i, i < n → i ≠ k → g i = []) →
      (List.range n).flatMap g = g k := by
  intro n
  induction n with
  | zero => omega
  | succ n ih =>
    intro k hk h
    rw [List.range_succ, List.flatMap_append]
    rcases Nat.lt_or_ge k n with hk2 | hk2
    · rw [ih k hk2 (fun i hi hne => h i (by omega) hne)]
      have hgn : g n = [] := h n (by omega) (by omega)
      simp [hgn]
    · have hkn : k = n := by omega
      subst hkn
      rw [List.flatMap_eq_nil_iff.mpr
        (fun i hi => h i (by
          have := List.mem_range.mp hi
          omega) (by
          have := List.mem_range.mp hi
          omega))]
      simp

/-- Rendering a second image that differs from the first in the three
color bytes of exactly one pixel issues exactly one cell write: the
cell whose half-block pair contains that pixel. -/
theorem renderImage_one_pixel (r : Renderer) (ox oy : ℤ)
    (w h x0 y0 : ℕ) (p1 p2 : ℕ → Fin 256)
    (hs : r.hasScreen = true) (hc : r.closed = false)
    (hw : 0 < w) (hh : 0 < h)
    (hsw : 0 < r.screenW) (hsh : 0 < r.screenH)
    (hx0 : x0 < w) (hy0 : y0 < h)
    (hpix : ∀ i : ℕ,
      i < y0 * (4 * w) + x0 * 4 ∨ y0 * (4 * w) + x0 * 4 + 2 < i →
      p2 i = p1 i)
    (hdiff : ¬(p2 (y0 * (4 * w) + x0 * 4) = p1 (y0 * (4 * w) + x0 * 4) ∧
      p2 (y0 * (4 * w) + x0 * 4 + 1) = p1 (y0 * (4 * w) + x0 * 4 + 1) ∧
      p2 (y0 * (4 * w) + x0 * 4 + 2) =
        p1 (y0 * (4 * w) + x0 * 4 + 2)))
    (hcx1 : 0 ≤ ox + (x0 : ℤ)) (hcx2 : ox + (x0 : ℤ) < r.screenW)
    (hcy1 : 0 ≤ oy + ((y0 / 2 : ℕ) : ℤ))
    (hcy2 : oy + ((y0 / 2 : ℕ) : ℤ) < r.screenH) :
    (RenderImage (RenderImage r (some ⟨w, h, 4 * w, p1⟩) ox oy).1
        (some ⟨w, h, 4 * w, p2⟩) ox oy).2 =
      [mkWrite ⟨w, h, 4 * w, p2⟩ (ox + (x0 : ℤ))
        (oy + ((y0 / 2 : ℕ) : ℤ)) x0 (2 * (y0 / 2))] := by
  rw [RenderImage_main r ⟨w, h, 4 * w, p1⟩ ox oy hs hc
    (by dsimp only; omega) (by dsimp only; omega) (by omega) (by omega)]
  dsimp only
  have hrows0 := renderRows_spec ⟨w, h, 4 * w, p1⟩ r.screenW r.screenH
    ox oy hw ((h + 1) / 2) 0 (renderCache r ⟨w, h, 4 * w, p1⟩)
  dsimp only at hrows0
  simp only [Nat.mul_zero, Nat.zero_add, ← List.range_eq_range'] at hrows0
  obtain ⟨hlen0, -, hpt0⟩ := hrows0
  generalize hC1 : (renderRows ⟨w, h, 4 * w, p1⟩ r.screenW r.screenH ox oy
    (List.range ((h + 1) / 2)) 0
    (renderCache r ⟨w, h, 4 * w, p1⟩)).1 = C1 at hlen0 hpt0 ⊢
  rw [RenderImage_main
    ({ r with prevCells := C1, prevW := w, prevH := (h + 1) / 2 })
    ⟨w, h, 4 * w, p2⟩ ox oy hs hc
    (by dsimp only; omega) (by dsimp only; omega)
    (by dsimp only; omega) (by dsimp only; omega)]
  dsimp only
  rw [renderCache_of_matching _ ⟨w, h, 4 * w, p2⟩
    (by
      dsimp only
      rw [hlen0]
      exact renderCache_length r ⟨w, h, 4 * w, p1⟩) rfl rfl]
  dsimp only
  have hrows1 := renderRows_spec ⟨w, h, 4 * w, p2⟩ r.screenW r.screenH
    ox oy hw ((h + 1) / 2) 0 C1
  dsimp only at hrows1
  simp only [Nat.mul_zero, Nat.zero_add, ← List.range_eq_range'] at hrows1
  rw [hrows1.2.1]
  have hC1len : C1.length = w * ((h + 1) / 2) := by
    rw [hlen0]
    exact renderCache_length r ⟨w, h, 4 * w, p1⟩
  have hgetC1 : ∀ (px cy : ℕ), px < w → cy < (h + 1) / 2 →
      0 ≤ ox + (px : ℤ) → ox + (px : ℤ) < r.screenW →
      0 ≤ oy + (cy : ℤ) → oy + (cy : ℤ) < r.screenH →
      C1.getD (w * cy + px) 0 =
        cellKey ⟨w, h, 4 * w, p1⟩ px (2 * cy) := by
    intro px cy hpxw hcyb hx1 hx2 hy1 hy2
    have hmul : w * (cy + 1) = w * cy + w := by ring
    have hjlt : w * cy + px < w * ((h + 1) / 2) := by
      have h1 : w * (cy + 1) ≤ w * ((h + 1) / 2) :=
        Nat.mul_le_mul_left _ hcyb
      omega
    obtain ⟨hdiv, hmod⟩ := rows_div_mod hw (Nat.le_add_right (w * cy) px)
      (by omega)
    rw [hpt0 (w * cy + px), if_pos]
    · rw [hdiv, hmod]
      congr 1
      omega
    · rw [hdiv, hmod, renderCache_length]
      refine ⟨by omega, hjlt, ?_, ?_, ?_, ?_, hjlt⟩
      · exact hy1
      · exact hy2
      · have hpe : w * cy + px - w * cy = px := by omega
        rw [hpe]
        exact hx1
      · have hpe : w * cy + px - w * cy = px := by omega
        rw [hpe]
        exact hx2
  have hky : y0 / 2 < (h + 1) / 2 := by omega
  refine Eq.trans
    (range_flatMap_single _ _ (y0 / 2) hky ?_) ?_
  · intro cyi hcyb hcyne
    dsimp only
    split_ifs with hrowin
    · rw [List.filterMap_eq_nil_iff]
      intro i hi
      have hiw : i < w := List.mem_range.mp hi
      rw [if_neg]
      intro ⟨hi1, hi2, hno⟩
      apply hno
      have hmul : w * (cyi + 1) = w * cyi + w := by ring
      have hjlt : w * cyi + i < w * ((h + 1) / 2) := by
        have h1 : w * (cyi + 1) ≤ w * ((h + 1) / 2) :=
          Nat.mul_le_mul_left _ hcyb
        omega
      refine ⟨by rw [hC1len]; exact hjlt, ?_⟩
      rw [hgetC1 i cyi hiw hcyb hi1 hi2 hrowin.1 hrowin.2]
      exact (cellKey_congr_of_untouched w h p1 p2 x0 y0 i cyi hx0 hiw
        (fun he => hcyne he.2) hpix).symm
    · rfl
  · dsimp only
    rw [if_pos ⟨hcy1, hcy2⟩]
    refine Eq.trans
      (range_filterMap_single _ _ x0 hx0 ?_) ?_
    · intro i hiw hix
      rw [if_neg]
      intro ⟨hi1, hi2, hno⟩
      apply hno
      have hmul : w * (y0 / 2 + 1) = w * (y0 / 2) + w := by ring
      have hjlt : w * (y0 / 2) + i < w * ((h + 1) / 2) := by
        have h1 : w * (y0 / 2 + 1) ≤ w * ((h + 1) / 2) :=
          Nat.mul_le_mul_left _ hky
        omega
      refine ⟨by rw [hC1len]; exact hjlt, ?_⟩
      rw [hgetC1 i (y0 / 2) hiw hky hi1 hi2 hcy1 hcy2]
      exact (cellKey_congr_of_untouched w h p1 p2 x0 y0 i (y0 / 2) hx0 hiw
        (fun he => hix he.1) hpix).symm
    · have hnokey : ¬(w * (y0 / 2) + x0 < C1.length ∧
          C1.getD (w * (y0 / 2) + x0) 0 =
            cellKey ⟨w, h, 4 * w, p2⟩ x0 (2 * (y0 / 2))) := by
        intro ⟨_, hgd⟩
        rw [hgetC1 x0 (y0 / 2) hx0 hky hcx1 hcx2 hcy1 hcy2] at hgd
        exact cellKey_ne_changed w h x0 y0 p1 p2 hy0 hdiff hgd.symm
      rw [if_pos ⟨hcx1, hcx2, hnokey⟩]
      rfl

/-- After any change in the cell-grid shape, the cache is refilled with
the sentinel, so every visible cell of the next frame is drawn. -/
theorem renderImage_full_after_realloc (r : Renderer)
    (img : video.RGBAImage) (ox oy : ℤ)
    (hs : r.hasScreen = true) (hc : r.closed = false)
    (hw : 0 < img.w) (hh : 0 < img.h)
    (hsw : 0 < r.screenW) (hsh : 0 < r.screenH)
    (hch : r.prevCells.length ≠ img.w * ((img.h + 1) / 2) ∨
      r.prevW ≠ img.w ∨ r.prevH ≠ (img.h + 1) / 2)
    (px cy : ℕ) (hpx : px < img.w) (hcy : cy < (img.h + 1) / 2)
    (hin1 : 0 ≤ ox + (px : ℤ)) (hin2 : ox + (px : ℤ) < r.screenW)
    (hin3 : 0 ≤ oy + (cy : ℤ)) (hin4 : oy + (cy : ℤ) < r.screenH) :
    mkWrite img (ox + (px : ℤ)) (oy + (cy : ℤ)) px (2 * cy) ∈
      (RenderImage r (some img) ox oy).2 := by
  rw [RenderImage_main r img ox oy hs hc (by omega) (by omega)
    (by omega) (by omega)]
  have hreal : renderCache r img =
      List.replicate (img.w * ((img.h + 1) / 2)) sentinel := by
    unfold renderCache
    rw [if_pos hch]
  have hrows := renderRows_spec img r.screenW r.screenH ox oy hw
    ((img.h + 1) / 2) 0 (renderCache r img)
  simp only [Nat.mul_zero, Nat.zero_add, ← List.range_eq_range'] at hrows
  rw [hrows.2.1, List.mem_flatMap]
  refine ⟨cy, List.mem_range.mpr hcy, ?_⟩
  dsimp only
  rw [if_pos ⟨hin3, hin4⟩, List.mem_filterMap]
  refine ⟨px, List.mem_range.mpr hpx, ?_⟩
  dsimp only
  have hnokey : ¬(img.w * cy + px < (renderCache r img).length ∧
      (renderCache r img).getD (img.w * cy + px) 0 =
        cellKey img px (2 * cy)) := by
    intro ⟨hlt, hgd⟩
    rw [renderCache_length] at hlt
    rw [hreal, getD_replicate_eval, if_pos hlt] at hgd
    exact cellKey_ne_sentinel img px (2 * cy) hgd.symm
  rw [if_pos ⟨hin1, hin2, hnokey⟩]

end renderer

/-- C7: diff-cache correctness of `RenderImage`.  With screen size and
offsets fixed: (1) rendering the same pixel buffer twice issues zero
cell writes on the second call; (2) no packed 48-bit color key can
equal the all-bits-set sentinel the cache is refilled with after a
dimension change; (3) if exactly one pixel's color differs between two
consecutive same-shape buffers, the second call writes exactly the one
cell whose half-block pair contains that pixel; (4) after a change in
image dimensions the cache is reallocated, so every visible cell of
the next frame is drawn. -/
theorem claim_C7_diff_cache
    (rb : renderer.Renderer) (oxb oyb : ℤ) (w h x0 y0 : ℕ)
    (p1 p2 : ℕ → Fin 256)
    (hbs : rb.hasScreen = true) (hbc : rb.closed = false)
    (hbw : 0 < w) (hbh : 0 < h)
    (hbsw : 0 < rb.screenW) (hbsh : 0 < rb.screenH)
    (hx0 : x0 < w) (hy0 : y0 < h)
    (hpix : ∀ i : ℕ,
      i < y0 * (4 * w) + x0 * 4 ∨ y0 * (4 * w) + x0 * 4 + 2 < i →
      p2 i = p1 i)
    (hdiff : ¬(p2 (y0 * (4 * w) + x0 * 4) = p1 (y0 * (4 * w) + x0 * 4) ∧
      p2 (y0 * (4 * w) + x0 * 4 + 1) = p1 (y0 * (4 * w) + x0 * 4 + 1) ∧
      p2 (y0 * (4 * w) + x0 * 4 + 2) =
        p1 (y0 * (4 * w) + x0 * 4 + 2)))
    (hcx1 : 0 ≤ oxb + (x0 : ℤ)) (hcx2 : oxb + (x0 : ℤ) < rb.screenW)
    (hcy1 : 0 ≤ oyb + ((y0 / 2 : ℕ) : ℤ))
    (hcy2 : oyb + ((y0 / 2 : ℕ) : ℤ) < rb.screenH)
    (rc : renderer.Renderer) (imgc : video.RGBAImage) (oxc oyc : ℤ)
    (hcs : rc.hasScreen = true) (hcc : rc.closed = false)
    (hcw : 0 < imgc.w) (hch2 : 0 < imgc.h)
    (hcsw : 0 < rc.screenW) (hcsh : 0 < rc.screenH)
    (hchange : rc.prevCells.length ≠ imgc.w * ((imgc.h + 1) / 2) ∨
      rc.prevW ≠ imgc.w ∨ rc.prevH ≠ (imgc.h + 1) / 2)
    (pxc cyc : ℕ) (hpxc : pxc < imgc.w) (hcyc : cyc < (imgc.h + 1) / 2)
    (hinc1 : 0 ≤ oxc + (pxc : ℤ)) (hinc2 : oxc + (pxc : ℤ) < rc.screenW)
    (hinc3 : 0 ≤ oyc + (cyc : ℤ)) (hinc4 : oyc + (cyc : ℤ) < rc.screenH) :
    (∀ (r : renderer.Renderer) (img? : Option video.RGBAImage)
        (ox oy : ℤ),
      (renderer.RenderImage (renderer.RenderImage r img? ox oy).1 img?
        ox oy).2 = []) ∧
      (∀ a b c d e f : Fin 256,
        renderer.packColors ↑a ↑b ↑c ↑d ↑e ↑f ≠ renderer.sentinel) ∧
      (renderer.RenderImage
          (renderer.RenderImage rb (some ⟨w, h, 4 * w, p1⟩) oxb oyb).1
          (some ⟨w, h, 4 * w, p2⟩) oxb oyb).2 =
        [renderer.mkWrite ⟨w, h, 4 * w, p2⟩ (oxb + (x0 : ℤ))
          (oyb + ((y0 / 2 : ℕ) : ℤ)) x0 (2 * (y0 / 2))] ∧
      renderer.mkWrite imgc (oxc + (pxc : ℤ)) (oyc + (cyc : ℤ)) pxc
          (2 * cyc) ∈
        (renderer.RenderImage rc (some imgc) oxc oyc).2 :=
  ⟨renderer.renderImage_idempotent,
    renderer.packColors_ne_sentinel,
    renderer.renderImage_one_pixel rb oxb oyb w h x0 y0 p1 p2 hbs hbc hbw
      hbh hbsw hbsh hx0 hy0 hpix hdiff hcx1 hcx2 hcy1 hcy2,
    renderer.renderImage_full_after_realloc rc imgc oxc oyc hcs hcc hcw
      hch2 hcsw hcsh hchange pxc cyc hpxc hcyc hinc1 hinc2 hinc3 hinc4⟩

theorem claim_C7_diff_cache_witness :
    (∀ (r : renderer.Renderer) (img? : Option video.RGBAImage)
        (ox oy : ℤ),
      (renderer.RenderImage (renderer.RenderImage r img? ox oy).1 img?
        ox oy).2 = []) ∧
      (∀ a b c d e f : Fin 256,
        renderer.packColors ↑a ↑b ↑c ↑d ↑e ↑f ≠ renderer.sentinel) ∧
      (renderer.RenderImage
          (renderer.RenderImage renderer.sampleRenderer
            (some ⟨2, 2, 4 * 2, renderer.zeroPix⟩) 0 0).1
          (some ⟨2, 2, 4 * 2, renderer.onePix⟩) 0 0).2 =
        [renderer.mkWrite ⟨2, 2, 4 * 2, renderer.onePix⟩
          ((0 : ℤ) + ((0 : ℕ) : ℤ))
          ((0 : ℤ) + ((0 / 2 : ℕ) : ℤ)) 0 (2 * (0 / 2))] ∧
      renderer.mkWrite renderer.zeroImage ((0 : ℤ) + ((0 : ℕ) : ℤ))
          ((0 : ℤ) + ((0 : ℕ) : ℤ)) 0 (2 * 0) ∈
        (renderer.RenderImage renderer.sampleRenderer
          (some renderer.zeroImage) 0 0).2 :=
  claim_C7_diff_cache renderer.sampleRenderer 0 0 2 2 0 0
    renderer.zeroPix renderer.onePix rfl rfl (by decide) (by decide)
    (by decide) (by decide) (by decide) (by decide)
    (by simp +contextual [renderer.onePix, renderer.zeroPix])
    (by decide) (by decide) (by decide) (by decide) (by decide)
    renderer.sampleRenderer renderer.zeroImage 0 0 rfl rfl (by decide)
    (by decide) (by decide) (by decide) (by decide) 0 0 (by decide)
    (by decide) (by decide) (by decide) (by decide) (by decide)

end PixlGo
